import Mathlib

/-!
Verification of the storage-and-concurrency core of a teaching-grade
disk-backed relational database engine (buffer pool with LRU-K replacement,
on-disk B+Tree index, hierarchical lock manager with deadlock detection).

Each C++ routine under scrutiny is shallowly embedded as an executable Lean
function that mirrors the source statement by statement; machine containers
are mirrored as follows.

* `std::set<std::pair<size_t, frame_id_t>>` (the replacer's eviction indices)
  becomes a list kept sorted by the lexicographic order on pairs;
  `begin()` is the head of that list.
* `std::unordered_map` / `std::map` become association lists.  Where the
  C++ code only does point lookups, insertions and erasures, the entry order
  of the association list is irrelevant; where the code iterates a map (the
  deadlock detector's `waits_for`), we keep the list sorted by key, matching
  ordered-container iteration, and record that assumption with the claim.
* B+Tree pages carry an explicit `size` field next to backing lists that may
  be longer than `size`, exactly like the fixed-capacity on-page arrays;
  reads beyond `size` observe stale or zeroed slots just as the machine does
  (freshly allocated pages are zero-filled by `ResetMemory`).
-/

/-! ## Association lists and sorted pair sets -/

/-- Point lookup in an association list (`map.count(k)` / `map[k]`). -/
def aGet [DecidableEq κ] (m : List (κ × α)) (k : κ) : Option α :=
  (m.find? (fun e => decide (e.1 = k))).map (·.2)

/-- Membership test, `map.count(k) != 0`. -/
def aMem [DecidableEq κ] (m : List (κ × α)) (k : κ) : Bool :=
  (m.find? (fun e => decide (e.1 = k))).isSome

/-- Insert-or-replace, `map[k] = v`. -/
def aSet [DecidableEq κ] (m : List (κ × α)) (k : κ) (v : α) : List (κ × α) :=
  match m with
  | [] => [(k, v)]
  | e :: es => if e.1 = k then (k, v) :: es else e :: aSet es k v

/-- Erase a key, `map.erase(k)`. -/
def aErase [DecidableEq κ] (m : List (κ × α)) (k : κ) : List (κ × α) :=
  match m with
  | [] => []
  | e :: es => if e.1 = k then es else e :: aErase es k

/-- Strict lexicographic order on timestamp/frame pairs, the order of
`std::set<std::pair<size_t, frame_id_t>>`. -/
def pairLt (a b : Nat × Nat) : Bool :=
  a.1 < b.1 || (a.1 == b.1 && a.2 < b.2)

/-- Ordered-set insertion (`set.insert`); duplicates are not re-added. -/
def setInsert (p : Nat × Nat) (s : List (Nat × Nat)) : List (Nat × Nat) :=
  match s with
  | [] => [p]
  | q :: qs =>
    if pairLt p q then p :: q :: qs
    else if p = q then q :: qs
    else q :: setInsert p qs

/-- Ordered-set erasure (`set.erase`); erasing an absent element is a no-op. -/
def setErase (p : Nat × Nat) (s : List (Nat × Nat)) : List (Nat × Nat) :=
  match s with
  | [] => []
  | q :: qs => if p = q then qs else q :: setErase p qs

/-! ## LRU-K replacer (`src/buffer/lru_k_replacer.cpp`)

A node's access history is the list of recorded timestamps, oldest first
(`history_.push_back` appends).  `node_store_1` holds evictable frames with
fewer than `k` accesses, `node_store_2` evictable frames with at least `k`,
`inevictable_store` the non-evictable frames.  `S1` is keyed by the last
recorded access, `S2` by the k-th most recent access. -/

structure LRUKReplacer where
  k : Nat
  currentTimestamp : Nat
  nodeStore1 : List (Nat × List Nat)
  nodeStore2 : List (Nat × List Nat)
  inevictableStore : List (Nat × List Nat)
  S1 : List (Nat × Nat)
  S2 : List (Nat × Nat)
  currSize : Nat
deriving Repr, DecidableEq

/-- `LRUKReplacer(num_frames, k)`: the freshly constructed replacer
(`num_frames` only bounds the frame universe and plays no role below). -/
def LRUKReplacer.init (k : Nat) : LRUKReplacer :=
  ⟨k, 0, [], [], [], [], [], 0⟩

/-- `history_[history_.size() - j]` (1 = `back()`). -/
def histFromEnd (h : List Nat) (j : Nat) : Nat :=
  h.getD (h.length - j) 0

/-- `LRUKReplacer::Evict`. -/
def LRUKReplacer.Evict (s : LRUKReplacer) : Option Nat × LRUKReplacer :=
  if s.currSize = 0 then (none, s) else
  let s := { s with currSize := s.currSize - 1 }
  if s.nodeStore1.length ≠ 0 then
    let p := s.S1.headD (0, 0)
    (some p.2, { s with S1 := setErase p s.S1, nodeStore1 := aErase s.nodeStore1 p.2 })
  else
    let p := s.S2.headD (0, 0)
    (some p.2, { s with S2 := setErase p s.S2, nodeStore2 := aErase s.nodeStore2 p.2 })

/-- `LRUKReplacer::RecordAccess`. -/
def LRUKReplacer.RecordAccess (s : LRUKReplacer) (fid : Nat) : LRUKReplacer :=
  let ts := s.currentTimestamp + 1
  let s := { s with currentTimestamp := ts }
  let s :=
    if ¬ aMem s.nodeStore1 fid ∧ ¬ aMem s.nodeStore2 fid ∧ ¬ aMem s.inevictableStore fid then
      { s with inevictableStore := aSet s.inevictableStore fid [] }
    else s
  if aMem s.inevictableStore fid then
    let h := (aGet s.inevictableStore fid).getD []
    { s with inevictableStore := aSet s.inevictableStore fid (h ++ [ts]) }
  else
    let h :=
      if aMem s.nodeStore1 fid then (aGet s.nodeStore1 fid).getD []
      else (aGet s.nodeStore2 fid).getD []
    let newH := h ++ [ts]
    if newH.length < s.k then
      { s with
          nodeStore1 := aSet s.nodeStore1 fid newH,
          S1 := setInsert (ts, fid) (setErase (histFromEnd newH 2, fid) s.S1) }
    else
      let s :=
        if aMem s.nodeStore1 fid then
          { s with
              nodeStore1 := aErase s.nodeStore1 fid,
              S1 := setErase (histFromEnd newH 2, fid) s.S1 }
        else s
      if ¬ aMem s.nodeStore2 fid then
        { s with
            S2 := setInsert (histFromEnd newH s.k, fid) s.S2,
            nodeStore2 := aSet s.nodeStore2 fid newH }
      else
        -- faithful to the source: the stale warm-index entry is erased from
        -- S1 (a no-op, the frame is indexed in S2), then a fresh entry is
        -- inserted into S2, so S2 can accumulate stale entries
        { s with
            S1 := setErase (histFromEnd newH (s.k + 1), fid) s.S1,
            S2 := setInsert (histFromEnd newH s.k, fid) s.S2,
            nodeStore2 := aSet s.nodeStore2 fid newH }

/-- `LRUKReplacer::SetEvictable`. -/
def LRUKReplacer.SetEvictable (s : LRUKReplacer) (fid : Nat) (ev : Bool) : LRUKReplacer :=
  if ¬ aMem s.nodeStore1 fid ∧ ¬ aMem s.nodeStore2 fid ∧ ¬ aMem s.inevictableStore fid then s
  else if ev then
    if aMem s.nodeStore1 fid ∨ aMem s.nodeStore2 fid then s
    else
      let h := (aGet s.inevictableStore fid).getD []
      let s := { s with currSize := s.currSize + 1, inevictableStore := aErase s.inevictableStore fid }
      if h.length < s.k then
        { s with nodeStore1 := aSet s.nodeStore1 fid h,
                 S1 := setInsert (histFromEnd h 1, fid) s.S1 }
      else
        { s with nodeStore2 := aSet s.nodeStore2 fid h,
                 S2 := setInsert (histFromEnd h s.k, fid) s.S2 }
  else
    if aMem s.inevictableStore fid then s
    else
      let s := { s with currSize := s.currSize - 1 }
      if aMem s.nodeStore1 fid then
        let h := (aGet s.nodeStore1 fid).getD []
        { s with nodeStore1 := aErase s.nodeStore1 fid,
                 S1 := setErase (histFromEnd h 1, fid) s.S1,
                 inevictableStore := aSet s.inevictableStore fid h }
      else
        let h := (aGet s.nodeStore2 fid).getD []
        { s with nodeStore2 := aErase s.nodeStore2 fid,
                 S2 := setErase (histFromEnd h s.k, fid) s.S2,
                 inevictableStore := aSet s.inevictableStore fid h }

/-- `LRUKReplacer::Size`. -/
def LRUKReplacer.Size (s : LRUKReplacer) : Nat := s.currSize

/-- Record a list of accesses in order. -/
def LRUKReplacer.RecordAll (s : LRUKReplacer) (fids : List Nat) : LRUKReplacer :=
  fids.foldl LRUKReplacer.RecordAccess s

/-- Mark a list of frames evictable. -/
def LRUKReplacer.EvictAll (s : LRUKReplacer) (fids : List Nat) : LRUKReplacer :=
  fids.foldl (fun t f => t.SetEvictable f true) s

/-- `n` successive `Evict` calls, collecting the returned frame ids. -/
def LRUKReplacer.EvictSeq (s : LRUKReplacer) : Nat → List (Option Nat) × LRUKReplacer
  | 0 => ([], s)
  | n + 1 =>
    let r := s.Evict
    let rest := r.2.EvictSeq n
    (r.1 :: rest.1, rest.2)

/-- Scenario S1 of the specification: `k = 2`, record accesses to frames
1,2,3,4,1,2,3,1,2,4 in that order, then mark frames 1..4 evictable. -/
def lruScenarioS1 : LRUKReplacer :=
  ((LRUKReplacer.init 2).RecordAll [1, 2, 3, 4, 1, 2, 3, 1, 2, 4]).EvictAll [1, 2, 3, 4]

/-- Replacer state refuting the cold-set tie-break of claim C4: `k = 3`,
accesses 1, 2, 2, 1 (timestamps 1..4), then frames 1 and 2 marked evictable.
Both frames are cold (2 < 3 accesses); frame 1 has first access 1,
frame 2 has first access 2. -/
def lruColdTieState : LRUKReplacer :=
  (((LRUKReplacer.init 3).RecordAll [1, 2, 2, 1]).SetEvictable 1 true).SetEvictable 2 true

/-- First recorded access of a frame's history. -/
def firstAcc (h : List Nat) : Nat := h.headD 0

/-- `history_.back()`, the most recent access. -/
def lastAcc (h : List Nat) : Nat := histFromEnd h 1

/-- `history_[history_.size() - k]`, the k-th most recent access. -/
def kthAcc (k : Nat) (h : List Nat) : Nat := histFromEnd h k

/-- Reflexive closure of the pair order. -/
def pairLe (a b : Nat × Nat) : Prop := pairLt a b = true ∨ a = b

/-- Representation invariant of the replacer's evictable sets: `S1` indexes
exactly the frames of `node_store_1`, keyed by their most recent access;
`S2` indexes exactly the frames of `node_store_2`, keyed by their k-th most
recent access; both indices are strictly sorted; the evictable count is the
number of indexed frames. -/
def LRUKInv (s : LRUKReplacer) : Prop :=
  1 ≤ s.k ∧
  s.S1.Pairwise (fun a b => pairLt a b = true) ∧
  s.S2.Pairwise (fun a b => pairLt a b = true) ∧
  (∀ p ∈ s.S1, (aGet s.nodeStore1 p.2).map lastAcc = some p.1) ∧
  (∀ p ∈ s.S2, (aGet s.nodeStore2 p.2).map (kthAcc s.k) = some p.1) ∧
  (∀ e ∈ s.nodeStore1, (lastAcc e.2, e.1) ∈ s.S1) ∧
  (∀ e ∈ s.nodeStore2, (kthAcc s.k e.2, e.1) ∈ s.S2) ∧
  s.currSize = s.nodeStore1.length + s.nodeStore2.length

instance (s : LRUKReplacer) : Decidable (LRUKInv s) := by
  unfold LRUKInv; infer_instance

theorem aGet_mem [DecidableEq κ] {m : List (κ × α)} {k : κ} {v : α} (h : aGet m k = some v) :
    (k, v) ∈ m := by
  unfold aGet at h
  rcases Option.map_eq_some'.mp h with ⟨e, he, hv⟩
  have hm := List.mem_of_find?_eq_some he
  have hk := List.find?_some he
  have : e.1 = k := by simpa using hk
  have : e = (k, v) := by
    cases e; simp_all
  simpa [this] using hm

theorem headD_mem {l : List (Nat × Nat)} (h : l ≠ []) (d : Nat × Nat) :
    l.headD d ∈ l := by
  cases l with
  | nil => exact absurd rfl h
  | cons a t => simp

theorem pairwise_headD_le {l : List (Nat × Nat)} {q : Nat × Nat}
    (hs : l.Pairwise (fun a b => pairLt a b = true)) (hq : q ∈ l) (d : Nat × Nat) :
    pairLe (l.headD d) q := by
  cases l with
  | nil => cases hq
  | cons a t =>
    rcases List.mem_cons.mp hq with h | h
    · exact Or.inr h.symm
    · exact Or.inl ((List.pairwise_cons.mp hs).1 q h)

/-- C4 counterexample input: in `lruColdTieState` both frames 1 and 2 are
evictable cold frames, frame 1 has the strictly smaller first-access
timestamp, yet `Evict` removes frame 2 (the cold index is keyed by the most
recent access, 3 for frame 2 versus 4 for frame 1), contradicting the
claimed smallest-first-access rule. -/
theorem C4_counterexample :
    (aMem lruColdTieState.nodeStore1 1 ∧ aMem lruColdTieState.nodeStore1 2) ∧
    firstAcc ((aGet lruColdTieState.nodeStore1 1).getD []) <
      firstAcc ((aGet lruColdTieState.nodeStore1 2).getD []) ∧
    lruColdTieState.Evict.1 = some 2 ∧ lruColdTieState.Evict.1 ≠ some 1 := by
  decide

/-- C4 (amended): for every replacer state satisfying the representation
invariant, `Evict` returns a cold frame whenever one is evictable, choosing
among cold frames the one with the smallest **most recent** access timestamp
(ties by frame id); only when no evictable cold frame exists does it return
the evictable warm frame whose k-th most recent access timestamp is smallest
(ties by frame id). -/
theorem C4_amended (s : LRUKReplacer) (hwf : LRUKInv s) :
    (s.nodeStore1 ≠ [] →
      ∃ f h, s.Evict.1 = some f ∧ aGet s.nodeStore1 f = some h ∧
        ∀ e ∈ s.nodeStore1, pairLe (lastAcc h, f) (lastAcc e.2, e.1)) ∧
    (s.nodeStore1 = [] → s.nodeStore2 ≠ [] →
      ∃ f h, s.Evict.1 = some f ∧ aGet s.nodeStore2 f = some h ∧
        ∀ e ∈ s.nodeStore2, pairLe (kthAcc s.k h, f) (kthAcc s.k e.2, e.1)) := by
  obtain ⟨hk, hs1, hs2, hsound1, hsound2, hcomp1, hcomp2, hsize⟩ := hwf
  constructor
  · intro h1
    have hlen1 : s.nodeStore1.length ≠ 0 := by
      simpa [List.length_eq_zero] using h1
    have hcs : s.currSize ≠ 0 := by
      omega
    have hS1ne : s.S1 ≠ [] := by
      cases hm : s.nodeStore1 with
      | nil => exact absurd hm h1
      | cons e t =>
        have : (lastAcc e.2, e.1) ∈ s.S1 := hcomp1 e (by simp [hm])
        intro hnil; rw [hnil] at this; cases this
    have hhead : s.S1.headD (0, 0) ∈ s.S1 := headD_mem hS1ne _
    have hkey := hsound1 _ hhead
    rcases Option.map_eq_some'.mp hkey with ⟨h, hget, hlast⟩
    refine ⟨(s.S1.headD (0, 0)).2, h, ?_, hget, ?_⟩
    · simp only [LRUKReplacer.Evict, hcs, if_neg hcs, if_pos hlen1]
      simp [hcs, hlen1]
    · intro e he
      have hmem : (lastAcc e.2, e.1) ∈ s.S1 := hcomp1 e he
      have hle := pairwise_headD_le hs1 hmem (0, 0)
      have hfst : (lastAcc h, (s.S1.headD (0, 0)).2) = s.S1.headD (0, 0) := by
        rw [hlast]
      rw [hfst]
      exact hle
  · intro h1 h2
    have hlen1 : ¬ s.nodeStore1.length ≠ 0 := by
      simp [h1]
    have hcs : s.currSize ≠ 0 := by
      have : s.nodeStore2.length ≠ 0 := by
        simpa [List.length_eq_zero] using h2
      omega
    have hS2ne : s.S2 ≠ [] := by
      cases hm : s.nodeStore2 with
      | nil => exact absurd hm h2
      | cons e t =>
        have : (kthAcc s.k e.2, e.1) ∈ s.S2 := hcomp2 e (by simp [hm])
        intro hnil; rw [hnil] at this; cases this
    have hhead : s.S2.headD (0, 0) ∈ s.S2 := headD_mem hS2ne _
    have hkey := hsound2 _ hhead
    rcases Option.map_eq_some'.mp hkey with ⟨h, hget, hlast⟩
    refine ⟨(s.S2.headD (0, 0)).2, h, ?_, hget, ?_⟩
    · simp only [LRUKReplacer.Evict]
      simp [hcs, hlen1]
    · intro e he
      have hmem : (kthAcc s.k e.2, e.1) ∈ s.S2 := hcomp2 e he
      have hle := pairwise_headD_le hs2 hmem (0, 0)
      have hfst : (kthAcc s.k h, (s.S2.headD (0, 0)).2) = s.S2.headD (0, 0) := by
        rw [hlast]
      rw [hfst]
      exact hle

theorem C4_amended_witness :
    LRUKInv lruColdTieState ∧
    (∃ f h, lruColdTieState.Evict.1 = some f ∧
      aGet lruColdTieState.nodeStore1 f = some h ∧
      ∀ e ∈ lruColdTieState.nodeStore1, pairLe (lastAcc h, f) (lastAcc e.2, e.1)) :=
  ⟨by decide, (C4_amended lruColdTieState (by decide)).1 (by decide)⟩

/-- C5 counterexample: after recording accesses 1,2,3,4,1,2,3,1,2,4 with
`k = 2` and marking frames 1..4 evictable, the four `Evict` calls do **not**
return 4, 3, 2, 1 (the very first call returns frame 3: every frame has at
least two recorded accesses, so the cold set is empty and the warm set is
ordered by the second-most-recent access, 3 for frame 3). -/
theorem C5_counterexample :
    ¬ (lruScenarioS1.EvictSeq 4).1 = [some 4, some 3, some 2, some 1] := by
  decide

/-- C5 (amended): in scenario S1 the frames evict in the order 3, 4, 1, 2
(all four frames are warm, and the warm set is ordered by the
second-most-recent accesses 3, 4, 5, 6 of frames 3, 4, 1, 2 respectively),
after which `Size` is 0 and a further `Evict` fails. -/
theorem C5_amended :
    (lruScenarioS1.EvictSeq 5).1 = [some 3, some 4, some 1, some 2, none] ∧
    ((lruScenarioS1.EvictSeq 4).2).Size = 0 := by
  decide

/-! ## Buffer pool manager (`src/buffer/buffer_pool_manager.cpp`)

A frame's page is mirrored with its id, pin count, dirty bit and an abstract
data word standing for the 4 KiB payload (0 = zero-filled).  The disk is an
association list from page id to the last written data word; reading a page
that was never written yields 0, matching the zero-initialised in-memory
disk manager of the tests. -/

structure BPage where
  pageId : Int
  pinCount : Int
  isDirty : Bool
  data : Nat
deriving Repr, DecidableEq, Inhabited

structure BufferPoolManager where
  poolSize : Nat
  pages : List BPage
  freeList : List Nat
  pageTable : List (Int × Nat)
  replacer : LRUKReplacer
  nextPageId : Int
  disk : List (Int × Nat)
deriving Repr, DecidableEq

/-- `BufferPoolManager(pool_size, disk_manager, replacer_k)`: all frames on
the free list (built with `emplace_back`, so `back()` is frame
`pool_size - 1`), default-constructed pages, empty page table. -/
def BufferPoolManager.mk0 (poolSize k : Nat) : BufferPoolManager :=
  { poolSize := poolSize
    pages := List.replicate poolSize ⟨-1, 0, false, 0⟩
    freeList := List.range poolSize
    pageTable := []
    replacer := LRUKReplacer.init k
    nextPageId := 0
    disk := [] }

def BufferPoolManager.getPage (s : BufferPoolManager) (f : Nat) : BPage :=
  s.pages.getD f default

def BufferPoolManager.setPage (s : BufferPoolManager) (f : Nat) (p : BPage) : BufferPoolManager :=
  { s with pages := s.pages.set f p }

/-- `disk_manager_->ReadPage`. -/
def diskRead (d : List (Int × Nat)) (pid : Int) : Nat := (aGet d pid).getD 0

/-- `BufferPoolManager::FromFreeListGetFrameId`: `free_list_.back()` then
`pop_back()`. -/
def BufferPoolManager.FromFreeListGetFrameId (s : BufferPoolManager) : Nat × BufferPoolManager :=
  (s.freeList.getLastD 0, { s with freeList := s.freeList.dropLast })

/-- `BufferPoolManager::FlushPage`. -/
def BufferPoolManager.FlushPage (s : BufferPoolManager) (pid : Int) : Bool × BufferPoolManager :=
  if pid = -1 ∨ ¬ aMem s.pageTable pid then (false, s)
  else
    let f := (aGet s.pageTable pid).getD 0
    let page := s.getPage f
    let s := { s with disk := aSet s.disk pid page.data }
    (true, s.setPage f { page with isDirty := false })

/-- `BufferPoolManager::FromEvitableGetFrameId`: evict a frame from the
replacer, flush the page it holds if dirty, and erase that page's mapping. -/
def BufferPoolManager.FromEvitableGetFrameId (s : BufferPoolManager) : Nat × BufferPoolManager :=
  let r := s.replacer.Evict
  let s := { s with replacer := r.2 }
  let f := r.1.getD 0
  let occupied := s.getPage f
  let s := if occupied.isDirty then (s.FlushPage occupied.pageId).2 else s
  (f, { s with pageTable := aErase s.pageTable occupied.pageId })

/-- `BufferPoolManager::InitNewPage`. -/
def BufferPoolManager.InitNewPage (s : BufferPoolManager) (f : Nat) (pid : Int) : BufferPoolManager :=
  let s := { s with pageTable := aSet s.pageTable pid f }
  s.setPage f ⟨pid, 0, false, 0⟩

/-- `BufferPoolManager::PinPage`. -/
def BufferPoolManager.PinPage (s : BufferPoolManager) (pid : Int) : BufferPoolManager :=
  let f := (aGet s.pageTable pid).getD 0
  let s := { s with replacer := (s.replacer.SetEvictable f false).RecordAccess f }
  let page := s.getPage f
  s.setPage f { page with pinCount := page.pinCount + 1 }

/-- `BufferPoolManager::NewPage`; returns the allocated page id. -/
def BufferPoolManager.NewPage (s : BufferPoolManager) : Option Int × BufferPoolManager :=
  if s.freeList = [] ∧ s.replacer.Size = 0 then (none, s)
  else
    let pid := s.nextPageId
    let s := { s with nextPageId := pid + 1 }
    let (f, s) := if s.freeList ≠ [] then s.FromFreeListGetFrameId else s.FromEvitableGetFrameId
    let s := s.InitNewPage f pid
    let s := s.PinPage pid
    (some pid, s)

/-- `BufferPoolManager::FetchPage`; returns a copy of the page the caller's
pointer refers to. -/
def BufferPoolManager.FetchPage (s : BufferPoolManager) (pid : Int) : Option BPage × BufferPoolManager :=
  if ¬ aMem s.pageTable pid then
    if s.freeList = [] ∧ s.replacer.Size = 0 then (none, s)
    else
      let (f, s) := if s.freeList ≠ [] then s.FromFreeListGetFrameId else s.FromEvitableGetFrameId
      let s := s.InitNewPage f pid
      let s := s.PinPage pid
      let page := s.getPage f
      let s := s.setPage f { page with data := diskRead s.disk pid }
      (some (s.getPage f), s)
  else
    let s := s.PinPage pid
    (some (s.getPage ((aGet s.pageTable pid).getD 0)), s)

/-- `BufferPoolManager::UnpinPage`. -/
def BufferPoolManager.UnpinPage (s : BufferPoolManager) (pid : Int) (isDirty : Bool) :
    Bool × BufferPoolManager :=
  if ¬ aMem s.pageTable pid then (false, s)
  else
    let f := (aGet s.pageTable pid).getD 0
    let page := s.getPage f
    if page.pinCount = 0 then (false, s)
    else
      let page := { page with pinCount := page.pinCount - 1 }
      let s :=
        if page.pinCount = 0 then { s with replacer := s.replacer.SetEvictable f true }
        else s
      (true, s.setPage f { page with isDirty := page.isDirty || isDirty })

/-- `BufferPoolManager::DeletePage`.  Note: faithful to the source, the
`page_table_` entry is **not** erased and the replacer is not told to forget
the frame. -/
def BufferPoolManager.DeletePage (s : BufferPoolManager) (pid : Int) : Bool × BufferPoolManager :=
  if ¬ aMem s.pageTable pid then (true, s)
  else
    let f := (aGet s.pageTable pid).getD 0
    let page := s.getPage f
    if 0 < page.pinCount then (false, s)
    else
      let s := { s with freeList := f :: s.freeList }
      (true, s.setPage f ⟨-1, 0, false, 0⟩)

/-- A pin-holding caller writing through its `Page*` pointer mutates the
frame it points to. -/
def BufferPoolManager.WriteFrame (s : BufferPoolManager) (f : Nat) (v : Nat) : BufferPoolManager :=
  let page := s.getPage f
  s.setPage f { page with data := v }

/-- Buffer pool of one frame: create page 0 (pinned), write 7 into its
frame, unpin it dirty. -/
def bpmTrace0 : BufferPoolManager :=
  (((BufferPoolManager.mk0 1 2).NewPage.2.WriteFrame 0 7).UnpinPage 0 true).2

/-- State after `DeletePage 0` succeeded. -/
def bpmAfterDelete : BufferPoolManager := (bpmTrace0.DeletePage 0).2

/-- State after a subsequent `NewPage` (allocating page 1 into the reused
frame 0) whose caller wrote 9 through its pointer. -/
def bpmAfterReuse : BufferPoolManager := bpmAfterDelete.NewPage.2.WriteFrame 0 9

/-- C6: `delete_page` on a pinned page fails (this part of the claim holds),
but after a successful `delete_page(0)` the page-table entry for page 0 is
**not** removed: frame 0 is simultaneously on the free list and mapped by the
page table, and once `new_page` installs page 1 in the reused frame, a
`fetch_page(0)` takes the resident branch and returns the frame now holding
page 1's data (9) with `page_id_ = 1`, instead of reading page 0's disk
image (0) from disk. -/
theorem C6_code_bug :
    ((BufferPoolManager.mk0 1 2).NewPage.2.DeletePage 0).1 = false ∧
    (bpmTrace0.DeletePage 0).1 = true ∧
    aGet bpmAfterDelete.pageTable 0 = some 0 ∧
    bpmAfterDelete.freeList = [0] ∧
    bpmAfterDelete.NewPage.1 = some 1 ∧
    aGet bpmAfterReuse.pageTable 0 = some 0 ∧
    aGet bpmAfterReuse.pageTable 1 = some 0 ∧
    (bpmAfterReuse.FetchPage 0).1 = some ⟨1, 2, false, 9⟩ ∧
    diskRead bpmAfterReuse.disk 0 = 0 := by
  decide

/-! ## Lock manager (`src/concurrency/lock_manager.cpp`)

Single-threaded semantics: an operation runs to completion; the
condition-variable loop `while (!CanTxnTakeLock(..)) cv_.wait(lock)` is
modelled by one evaluation of `CanTxnTakeLock` — if it denies the request,
no other thread exists to change the queue, so the caller is `blocked`. -/

inductive LockMode where
  | INTENTION_SHARED | INTENTION_EXCLUSIVE | SHARED | SHARED_INTENTION_EXCLUSIVE | EXCLUSIVE
deriving Repr, DecidableEq

inductive TransactionState where
  | GROWING | SHRINKING | COMMITTED | ABORTED
deriving Repr, DecidableEq

inductive IsolationLevel where
  | READ_UNCOMMITTED | READ_COMMITTED | REPEATABLE_READ
deriving Repr, DecidableEq

inductive AbortReason where
  | LOCK_ON_SHRINKING | UPGRADE_CONFLICT | INCOMPATIBLE_UPGRADE
  | ATTEMPTED_UNLOCK_BUT_NO_LOCK_HELD | ATTEMPTED_INTENTION_LOCK_ON_ROW
  | TABLE_UNLOCKED_BEFORE_UNLOCKING_ROWS
deriving Repr, DecidableEq

structure LockRequest where
  txnId : Nat
  lockMode : LockMode
  oid : Nat
  rid : Option Nat
  granted : Bool
deriving Repr, DecidableEq

/-- `INVALID_TXN_ID = -1` is the `upgrading_` sentinel. -/
structure LockRequestQueue where
  requests : List LockRequest
  upgrading : Int
deriving Repr, DecidableEq

structure Transaction where
  id : Nat
  state : TransactionState
  isolationLevel : IsolationLevel
  sharedTableLockSet : List Nat
  exclusiveTableLockSet : List Nat
  intentionSharedTableLockSet : List Nat
  intentionExclusiveTableLockSet : List Nat
  sharedIntentionExclusiveTableLockSet : List Nat
  sharedRowLockSet : List (Nat × Nat)
  exclusiveRowLockSet : List (Nat × Nat)
deriving Repr, DecidableEq

structure LockManager where
  tableLockMap : List (Nat × LockRequestQueue)
  rowLockMap : List (Nat × LockRequestQueue)
deriving Repr, DecidableEq

inductive LMOutcome where
  | ret (b : Bool)
  | threw (r : AbortReason)
  | blocked
deriving Repr, DecidableEq

structure LMResult where
  outcome : LMOutcome
  lm : LockManager
  txn : Transaction
deriving Repr, DecidableEq

/-- `std::unordered_set` insertion. -/
def sInsert [DecidableEq α] (l : List α) (x : α) : List α :=
  if x ∈ l then l else l ++ [x]

/-- `std::unordered_set` erasure. -/
def sErase [DecidableEq α] (l : List α) (x : α) : List α :=
  l.filter (fun y => y ≠ x)

/-- `LockManager::LockCompatible` (mode1 = requested, mode2 = held). -/
def LockCompatible (mode1 mode2 : LockMode) : Bool :=
  match mode1 with
  | .INTENTION_SHARED =>
    mode2 = .INTENTION_SHARED || mode2 = .INTENTION_EXCLUSIVE || mode2 = .SHARED ||
      mode2 = .SHARED_INTENTION_EXCLUSIVE
  | .INTENTION_EXCLUSIVE => mode2 = .INTENTION_SHARED || mode2 = .INTENTION_EXCLUSIVE
  | .SHARED => mode2 = .INTENTION_SHARED || mode2 = .SHARED
  | .SHARED_INTENTION_EXCLUSIVE => mode2 = .INTENTION_SHARED
  | .EXCLUSIVE => false

/-- `LockManager::CanLockUpgrade`. -/
def CanLockUpgrade (curr requested : LockMode) : Bool :=
  match curr with
  | .INTENTION_SHARED =>
    requested = .EXCLUSIVE || requested = .SHARED || requested = .INTENTION_EXCLUSIVE ||
      requested = .SHARED_INTENTION_EXCLUSIVE
  | .SHARED => requested = .EXCLUSIVE || requested = .SHARED_INTENTION_EXCLUSIVE
  | .INTENTION_EXCLUSIVE => requested = .EXCLUSIVE || requested = .SHARED_INTENTION_EXCLUSIVE
  | .SHARED_INTENTION_EXCLUSIVE => requested = .EXCLUSIVE
  | .EXCLUSIVE => false

/-- `LockManager::AddIntoTxnTableLockSet`. -/
def AddIntoTxnTableLockSet (txn : Transaction) (m : LockMode) (oid : Nat) : Transaction :=
  match m with
  | .SHARED => { txn with sharedTableLockSet := sInsert txn.sharedTableLockSet oid }
  | .EXCLUSIVE => { txn with exclusiveTableLockSet := sInsert txn.exclusiveTableLockSet oid }
  | .INTENTION_SHARED =>
    { txn with intentionSharedTableLockSet := sInsert txn.intentionSharedTableLockSet oid }
  | .INTENTION_EXCLUSIVE =>
    { txn with intentionExclusiveTableLockSet := sInsert txn.intentionExclusiveTableLockSet oid }
  | .SHARED_INTENTION_EXCLUSIVE =>
    { txn with sharedIntentionExclusiveTableLockSet := sInsert txn.sharedIntentionExclusiveTableLockSet oid }

/-- `LockManager::RemoveFromTxnTableLockSet`. -/
def RemoveFromTxnTableLockSet (txn : Transaction) (m : LockMode) (oid : Nat) : Transaction :=
  match m with
  | .SHARED => { txn with sharedTableLockSet := sErase txn.sharedTableLockSet oid }
  | .EXCLUSIVE => { txn with exclusiveTableLockSet := sErase txn.exclusiveTableLockSet oid }
  | .INTENTION_SHARED =>
    { txn with intentionSharedTableLockSet := sErase txn.intentionSharedTableLockSet oid }
  | .INTENTION_EXCLUSIVE =>
    { txn with intentionExclusiveTableLockSet := sErase txn.intentionExclusiveTableLockSet oid }
  | .SHARED_INTENTION_EXCLUSIVE =>
    { txn with sharedIntentionExclusiveTableLockSet := sErase txn.sharedIntentionExclusiveTableLockSet oid }

/-- `LockManager::AddIntoTxnRowLockSet`. -/
def AddIntoTxnRowLockSet (txn : Transaction) (m : LockMode) (oid rid : Nat) : Transaction :=
  match m with
  | .SHARED => { txn with sharedRowLockSet := sInsert txn.sharedRowLockSet (oid, rid) }
  | .EXCLUSIVE => { txn with exclusiveRowLockSet := sInsert txn.exclusiveRowLockSet (oid, rid) }
  | _ => txn

/-- `LockManager::ReomoveTxnRowLockSet` (sic). -/
def ReomoveTxnRowLockSet (txn : Transaction) (m : LockMode) (oid rid : Nat) : Transaction :=
  match m with
  | .SHARED => { txn with sharedRowLockSet := sErase txn.sharedRowLockSet (oid, rid) }
  | .EXCLUSIVE => { txn with exclusiveRowLockSet := sErase txn.exclusiveRowLockSet (oid, rid) }
  | _ => txn

/-- `LockManager::CheckTableOwnLock`: does the transaction hold a granted
request of exactly this mode on the table's queue? -/
def CheckTableOwnLock (txn : Transaction) (m : LockMode) (oid : Nat) (lm : LockManager) : Bool :=
  let q := (aGet lm.tableLockMap oid).getD ⟨[], -1⟩
  q.requests.any (fun lr => lr.granted && lr.txnId = txn.id && lr.lockMode = m)

/-- `LockManager::CheckAllRowsUnlock`: no row queue holds a granted request
of this transaction under this table. -/
def CheckAllRowsUnlock (txn : Transaction) (oid : Nat) (lm : LockManager) : Bool :=
  lm.rowLockMap.all fun e =>
    e.2.requests.all (fun lr => !(lr.txnId = txn.id && lr.oid = oid && lr.granted))

/-- First loop of the aborted branch of `CanTxnTakeLock`: erase the first
request of the transaction. -/
def eraseFirstOfTxn (l : List LockRequest) (tid : Nat) : List LockRequest :=
  match l with
  | [] => []
  | lr :: rest => if lr.txnId = tid then rest else lr :: eraseFirstOfTxn rest tid

/-- Upgrade branch of `CanTxnTakeLock`: grant the first ungranted request of
the transaction. -/
def grantFirstUngrantedOfTxn (l : List LockRequest) (tid : Nat) : List LockRequest :=
  match l with
  | [] => []
  | lr :: rest =>
    if !lr.granted && lr.txnId = tid then { lr with granted := true } :: rest
    else lr :: grantFirstUngrantedOfTxn rest tid

/-- FIFO loop of `CanTxnTakeLock` (the no-op `first_ungranted` bookkeeping of
the source collapses to this): walk the queue; granted requests are skipped
(conflicts with them were already checked), the transaction's own ungranted
request is granted, an earlier incompatible ungranted request denies. -/
def canGrantFifo (tid : Nat) (mode : LockMode) : List LockRequest → Bool × List LockRequest
  | [] => (true, [])
  | lr :: rest =>
    if lr.granted then
      let r := canGrantFifo tid mode rest
      (r.1, lr :: r.2)
    else if lr.txnId = tid then (true, { lr with granted := true } :: rest)
    else if !(LockCompatible mode lr.lockMode) then (false, lr :: rest)
    else
      let r := canGrantFifo tid mode rest
      (r.1, lr :: r.2)

/-- `LockManager::CanTxnTakeLock`. -/
def CanTxnTakeLock (txn : Transaction) (mode : LockMode) (q : LockRequestQueue) :
    Bool × LockRequestQueue :=
  if txn.state = .ABORTED then
    (true, { q with requests := eraseFirstOfTxn q.requests txn.id })
  else if q.requests.any (fun lr => lr.granted && !(LockCompatible mode lr.lockMode)) then
    (false, q)
  else if q.upgrading ≠ -1 then
    if q.upgrading = txn.id then
      (true, { q with upgrading := -1, requests := grantFirstUngrantedOfTxn q.requests txn.id })
    else (false, q)
  else
    let r := canGrantFifo txn.id mode q.requests
    (r.1, { q with requests := r.2 })

/-- First request of the transaction in the queue (the upgrade scan). -/
def findFirstOfTxn (l : List LockRequest) (tid : Nat) : Option LockRequest :=
  l.find? (fun lr => lr.txnId = tid)

/-- First granted request of the transaction (the unlock scan). -/
def findFirstGrantedOfTxn (l : List LockRequest) (tid : Nat) : Option LockRequest :=
  l.find? (fun lr => lr.granted && lr.txnId = tid)

/-- Erase the first granted request of the transaction. -/
def eraseFirstGrantedOfTxn (l : List LockRequest) (tid : Nat) : List LockRequest :=
  match l with
  | [] => []
  | lr :: rest =>
    if lr.granted && lr.txnId = tid then rest else lr :: eraseFirstGrantedOfTxn rest tid

/-- Tail of `LockTableDirectlyOrNot`: one evaluation of the wait loop, then
the post-wait abort check and lock-set bookkeeping. -/
def finishTableLock (txn : Transaction) (mode : LockMode) (oid : Nat) (q : LockRequestQueue)
    (lm : LockManager) : LMResult :=
  let r := CanTxnTakeLock txn mode q
  let lm := { lm with tableLockMap := aSet lm.tableLockMap oid r.2 }
  if ¬ r.1 then ⟨.blocked, lm, txn⟩
  else if txn.state = .ABORTED then ⟨.ret false, lm, txn⟩
  else ⟨.ret true, lm, AddIntoTxnTableLockSet txn mode oid⟩

/-- `LockManager::LockTableDirectlyOrNot`. -/
def LockTableDirectlyOrNot (txn : Transaction) (mode : LockMode) (oid : Nat) (directly : Bool)
    (lm : LockManager) : LMResult :=
  if txn.state = .COMMITTED ∨ txn.state = .ABORTED then ⟨.ret false, lm, txn⟩
  else if txn.state = .GROWING ∧ txn.isolationLevel = .READ_UNCOMMITTED ∧
      mode ≠ .INTENTION_EXCLUSIVE ∧ mode ≠ .EXCLUSIVE then ⟨.ret false, lm, txn⟩
  else if txn.state = .SHRINKING ∧ txn.isolationLevel = .REPEATABLE_READ then ⟨.ret false, lm, txn⟩
  else if txn.state = .SHRINKING ∧ txn.isolationLevel = .READ_COMMITTED ∧
      mode ≠ .INTENTION_SHARED ∧ mode ≠ .SHARED then ⟨.ret false, lm, txn⟩
  else if txn.state = .SHRINKING ∧ txn.isolationLevel = .READ_UNCOMMITTED then ⟨.ret false, lm, txn⟩
  else
    let q := (aGet lm.tableLockMap oid).getD ⟨[], -1⟩
    let store := fun (q : LockRequestQueue) => { lm with tableLockMap := aSet lm.tableLockMap oid q }
    match findFirstOfTxn q.requests txn.id with
    | some lr =>
      if lr.lockMode = mode then ⟨.ret true, store q, txn⟩
      else if q.upgrading ≠ -1 then
        if ¬ directly then ⟨.ret false, store q, txn⟩
        else ⟨.threw .UPGRADE_CONFLICT, store q, { txn with state := .ABORTED }⟩
      else if ¬ CanLockUpgrade lr.lockMode mode then
        if ¬ directly then ⟨.ret false, store q, txn⟩
        else ⟨.threw .INCOMPATIBLE_UPGRADE, store q, { txn with state := .ABORTED }⟩
      else
        let txn2 := RemoveFromTxnTableLockSet txn lr.lockMode oid
        let q := { q with upgrading := txn.id,
                          requests := eraseFirstOfTxn q.requests txn.id ++ [⟨txn.id, mode, oid, none, false⟩] }
        finishTableLock txn2 mode oid q lm
    | none =>
      let q := { q with requests := q.requests ++ [⟨txn.id, mode, oid, none, false⟩] }
      finishTableLock txn mode oid q lm

/-- `LockManager::LockTable`. -/
def LockTable (txn : Transaction) (mode : LockMode) (oid : Nat) (lm : LockManager) : LMResult :=
  LockTableDirectlyOrNot txn mode oid true lm

/-- `LockManager::UnlockTable`. -/
def UnlockTable (txn : Transaction) (oid : Nat) (lm : LockManager) : LMResult :=
  if ¬ CheckAllRowsUnlock txn oid lm then
    ⟨.threw .TABLE_UNLOCKED_BEFORE_UNLOCKING_ROWS, lm, { txn with state := .ABORTED }⟩
  else
    let q := (aGet lm.tableLockMap oid).getD ⟨[], -1⟩
    let store := fun (q : LockRequestQueue) => { lm with tableLockMap := aSet lm.tableLockMap oid q }
    match findFirstGrantedOfTxn q.requests txn.id with
    | some lr =>
      let txn :=
        match txn.isolationLevel with
        | .REPEATABLE_READ =>
          if lr.lockMode = .SHARED ∨ lr.lockMode = .EXCLUSIVE then { txn with state := .SHRINKING }
          else txn
        | .READ_COMMITTED =>
          if lr.lockMode = .EXCLUSIVE then { txn with state := .SHRINKING } else txn
        | .READ_UNCOMMITTED =>
          if lr.lockMode = .EXCLUSIVE then { txn with state := .SHRINKING } else txn
      let txn := RemoveFromTxnTableLockSet txn lr.lockMode oid
      ⟨.ret true, store { q with requests := eraseFirstGrantedOfTxn q.requests txn.id }, txn⟩
    | none => ⟨.threw .ATTEMPTED_UNLOCK_BUT_NO_LOCK_HELD, store q, { txn with state := .ABORTED }⟩

/-- `LockManager::UnlockRow`. -/
def UnlockRow (txn : Transaction) (oid rid : Nat) (force : Bool) (lm : LockManager) : LMResult :=
  let q := (aGet lm.rowLockMap rid).getD ⟨[], -1⟩
  let store := fun (q : LockRequestQueue) => { lm with rowLockMap := aSet lm.rowLockMap rid q }
  match findFirstGrantedOfTxn q.requests txn.id with
  | some lr =>
    let txn :=
      if ¬ force then
        match txn.isolationLevel with
        | .REPEATABLE_READ =>
          if lr.lockMode = .SHARED ∨ lr.lockMode = .EXCLUSIVE then { txn with state := .SHRINKING }
          else txn
        | .READ_COMMITTED =>
          if lr.lockMode = .EXCLUSIVE then { txn with state := .SHRINKING } else txn
        | .READ_UNCOMMITTED =>
          if lr.lockMode = .EXCLUSIVE then { txn with state := .SHRINKING } else txn
      else txn
    let txn := ReomoveTxnRowLockSet txn lr.lockMode oid rid
    ⟨.ret true, store { q with requests := eraseFirstGrantedOfTxn q.requests txn.id }, txn⟩
  | none => ⟨.threw .ATTEMPTED_UNLOCK_BUT_NO_LOCK_HELD, store q, { txn with state := .ABORTED }⟩

/-- Tail of `LockRow`: one evaluation of the wait loop, then the post-wait
abort check and row-lock-set bookkeeping. -/
def finishRowLock (txn : Transaction) (mode : LockMode) (oid rid : Nat) (q : LockRequestQueue)
    (lm : LockManager) : LMResult :=
  let r := CanTxnTakeLock txn mode q
  let lm := { lm with rowLockMap := aSet lm.rowLockMap rid r.2 }
  if ¬ r.1 then ⟨.blocked, lm, txn⟩
  else if txn.state = .ABORTED then ⟨.ret false, lm, txn⟩
  else ⟨.ret true, lm, AddIntoTxnRowLockSet txn mode oid rid⟩

/-- The row-queue phase of `LockRow` (duplicate / upgrade / enqueue / wait).
Faithful to the source: on an upgrade, the replaced lock is removed from the
transaction's **table** lock set (`RemoveFromTxnTableLockSet`), and the
re-enqueued request is built without a rid. -/
def LockRowQueuePhase (txn : Transaction) (mode : LockMode) (oid rid : Nat)
    (lm : LockManager) : LMResult :=
  let q := (aGet lm.rowLockMap rid).getD ⟨[], -1⟩
  let store := fun (q : LockRequestQueue) => { lm with rowLockMap := aSet lm.rowLockMap rid q }
  match findFirstOfTxn q.requests txn.id with
  | some lr =>
    if lr.lockMode = mode then ⟨.ret true, store q, txn⟩
    else if q.upgrading ≠ -1 then
      ⟨.threw .UPGRADE_CONFLICT, store q, { txn with state := .ABORTED }⟩
    else if ¬ CanLockUpgrade lr.lockMode mode then
      ⟨.threw .INCOMPATIBLE_UPGRADE, store q, { txn with state := .ABORTED }⟩
    else
      let txn2 := RemoveFromTxnTableLockSet txn lr.lockMode oid
      let q := { q with upgrading := txn.id,
                        requests := eraseFirstOfTxn q.requests txn.id ++ [⟨txn.id, mode, oid, none, false⟩] }
      finishRowLock txn2 mode oid rid q lm
  | none =>
    let q := { q with requests := q.requests ++ [⟨txn.id, mode, oid, some rid, false⟩] }
    finishRowLock txn mode oid rid q lm

/-- The transparent-intent-lock cascade of `LockRow`:
`!LockTableDirectlyOrNot(m1) && !LockTableDirectlyOrNot(m2) && ...` with
short-circuit evaluation threading the state. -/
def tryIntentLocks (txn : Transaction) (modes : List LockMode) (oid : Nat)
    (lm : LockManager) : LMResult :=
  match modes with
  | [] => ⟨.ret false, lm, txn⟩
  | m :: rest =>
    let r := LockTableDirectlyOrNot txn m oid false lm
    match r.outcome with
    | .ret true => ⟨.ret true, r.lm, r.txn⟩
    | .ret false => tryIntentLocks r.txn rest oid r.lm
    | o => ⟨o, r.lm, r.txn⟩

/-- `LockManager::LockRow`. -/
def LockRow (txn : Transaction) (mode : LockMode) (oid rid : Nat) (lm : LockManager) : LMResult :=
  if mode ≠ .SHARED ∧ mode ≠ .EXCLUSIVE then
    ⟨.threw .ATTEMPTED_INTENTION_LOCK_ON_ROW, lm, { txn with state := .ABORTED }⟩
  else if txn.state = .COMMITTED ∨ txn.state = .ABORTED then ⟨.ret false, lm, txn⟩
  else if txn.state = .SHRINKING ∧ txn.isolationLevel = .REPEATABLE_READ then
    ⟨.threw .LOCK_ON_SHRINKING, lm, { txn with state := .ABORTED }⟩
  else if txn.state = .SHRINKING ∧ txn.isolationLevel = .READ_COMMITTED ∧ mode ≠ .SHARED then
    ⟨.threw .LOCK_ON_SHRINKING, lm, { txn with state := .ABORTED }⟩
  else if txn.state = .SHRINKING ∧ txn.isolationLevel = .READ_UNCOMMITTED then
    ⟨.threw .LOCK_ON_SHRINKING, lm, { txn with state := .ABORTED }⟩
  else if mode = .SHARED ∧ ¬ CheckTableOwnLock txn .INTENTION_SHARED oid lm ∧
      ¬ CheckTableOwnLock txn .SHARED oid lm ∧
      ¬ CheckTableOwnLock txn .SHARED_INTENTION_EXCLUSIVE oid lm then
    let r := tryIntentLocks txn
      [.INTENTION_SHARED, .SHARED, .SHARED_INTENTION_EXCLUSIVE] oid lm
    match r.outcome with
    | .ret true => LockRowQueuePhase r.txn mode oid rid r.lm
    | .ret false => ⟨.ret false, r.lm, r.txn⟩
    | o => ⟨o, r.lm, r.txn⟩
  else if mode = .EXCLUSIVE ∧ ¬ CheckTableOwnLock txn .INTENTION_EXCLUSIVE oid lm ∧
      ¬ CheckTableOwnLock txn .EXCLUSIVE oid lm ∧
      ¬ CheckTableOwnLock txn .SHARED_INTENTION_EXCLUSIVE oid lm then
    let r := tryIntentLocks txn
      [.INTENTION_EXCLUSIVE, .EXCLUSIVE, .SHARED_INTENTION_EXCLUSIVE] oid lm
    match r.outcome with
    | .ret true => LockRowQueuePhase r.txn mode oid rid r.lm
    | .ret false => ⟨.ret false, r.lm, r.txn⟩
    | o => ⟨o, r.lm, r.txn⟩
  else LockRowQueuePhase txn mode oid rid lm

/-- A REPEATABLE_READ transaction (id 0) in the given state, holding the
table-lock set appropriate to `m` on table 1 and nothing else. -/
def rrTxnHolding (st : TransactionState) (m : LockMode) : Transaction :=
  AddIntoTxnTableLockSet ⟨0, st, .REPEATABLE_READ, [], [], [], [], [], [], []⟩ m 1

/-- A lock manager whose table-1 queue holds exactly one granted request of
mode `m` by transaction 0. -/
def lmHolding (m : LockMode) : LockManager :=
  ⟨[(1, ⟨[⟨0, m, 1, none, true⟩], -1⟩)], []⟩

/-- C7 counterexample: a REPEATABLE_READ transaction in GROWING that holds
an `IS` table lock releases it with `unlock_table`; the call succeeds but
the transaction stays in GROWING — the claimed transition to SHRINKING
happens only for `S` and `X` locks. -/
theorem C7_counterexample :
    (UnlockTable (rrTxnHolding .GROWING .INTENTION_SHARED) 1
        (lmHolding .INTENTION_SHARED)).outcome = .ret true ∧
    (UnlockTable (rrTxnHolding .GROWING .INTENTION_SHARED) 1
        (lmHolding .INTENTION_SHARED)).txn.state = .GROWING ∧
    (UnlockTable (rrTxnHolding .GROWING .INTENTION_SHARED) 1
        (lmHolding .INTENTION_SHARED)).txn.state ≠ .SHRINKING := by
  decide

/-- A REPEATABLE_READ transaction (id 0) in the given state, holding the
row-lock set appropriate to `m` on row (1, rid 5) and nothing else. -/
def rrRowTxnHolding (st : TransactionState) (m : LockMode) : Transaction :=
  AddIntoTxnRowLockSet ⟨0, st, .REPEATABLE_READ, [], [], [], [], [], [], []⟩ m 1 5

/-- A lock manager whose rid-5 queue holds exactly one granted request of
mode `m` by transaction 0 on table 1. -/
def lmRowHolding (m : LockMode) : LockManager :=
  ⟨[], [(5, ⟨[⟨0, m, 1, some 5, true⟩], -1⟩)]⟩

/-- C7 (amended): under REPEATABLE_READ, a successful non-forced release —
by `unlock_table` or by `unlock_row` — moves the transaction to SHRINKING
exactly when the released lock's mode is `S` or `X` (releases of `IS`, `IX`,
`SIX` leave the state unchanged, and a forced `unlock_row` never changes
it); in SHRINKING, `lock_row` aborts the transaction with LOCK_ON_SHRINKING,
while `lock_table` merely returns failure without aborting. -/
theorem C7_amended :
    ∀ m : LockMode,
      (UnlockTable (rrTxnHolding .GROWING m) 1 (lmHolding m)).outcome = .ret true ∧
      (UnlockTable (rrTxnHolding .GROWING m) 1 (lmHolding m)).txn.state =
        (if m = .SHARED ∨ m = .EXCLUSIVE then .SHRINKING else .GROWING) ∧
      (UnlockRow (rrRowTxnHolding .GROWING m) 1 5 false (lmRowHolding m)).outcome = .ret true ∧
      (UnlockRow (rrRowTxnHolding .GROWING m) 1 5 false (lmRowHolding m)).txn.state =
        (if m = .SHARED ∨ m = .EXCLUSIVE then .SHRINKING else .GROWING) ∧
      (UnlockRow (rrRowTxnHolding .GROWING m) 1 5 true (lmRowHolding m)).outcome = .ret true ∧
      (UnlockRow (rrRowTxnHolding .GROWING m) 1 5 true (lmRowHolding m)).txn.state = .GROWING ∧
      (LockTable (rrTxnHolding .SHRINKING m) m 2 (lmHolding m)).outcome = .ret false ∧
      (LockTable (rrTxnHolding .SHRINKING m) m 2 (lmHolding m)).txn.state = .SHRINKING ∧
      (LockRow (rrTxnHolding .SHRINKING m) .SHARED 1 5 (lmHolding m)).outcome =
        .threw .LOCK_ON_SHRINKING ∧
      (LockRow (rrTxnHolding .SHRINKING m) .SHARED 1 5 (lmHolding m)).txn.state = .ABORTED ∧
      (LockRow (rrTxnHolding .SHRINKING m) .EXCLUSIVE 1 5 (lmHolding m)).outcome =
        .threw .LOCK_ON_SHRINKING ∧
      (LockRow (rrTxnHolding .SHRINKING m) .EXCLUSIVE 1 5 (lmHolding m)).txn.state = .ABORTED := by
  intro m
  cases m <;> decide

/-- Transaction 0, GROWING, REPEATABLE_READ, holding a granted `IX` lock on
table 1 and a granted `S` lock on row (1,5). -/
def rowUpgradeTxn : Transaction :=
  ⟨0, .GROWING, .REPEATABLE_READ, [], [], [], [1], [], [(1, 5)], []⟩

def rowUpgradeLM : LockManager :=
  ⟨[(1, ⟨[⟨0, .INTENTION_EXCLUSIVE, 1, none, true⟩], -1⟩)],
   [(5, ⟨[⟨0, .SHARED, 1, some 5, true⟩], -1⟩)]⟩

/-- Transaction 0, GROWING, REPEATABLE_READ, holding a granted `S` lock on
table 1 (scenario S5). -/
def tableUpgradeTxn : Transaction :=
  ⟨0, .GROWING, .REPEATABLE_READ, [1], [], [], [], [], [], []⟩

def tableUpgradeLM : LockManager :=
  ⟨[(1, ⟨[⟨0, .SHARED, 1, none, true⟩], -1⟩)], []⟩

/-- C8: the table half of the claim holds (S5: upgrading `S` to `X` on a
table succeeds, resets the queue's upgrade marker to the invalid id, and the
held sets record `X` and no longer `S`), but the row half fails: after a
successful `S` → `X` upgrade of row (1,5) via `lock_row`, the upgrade marker
is reset and the exclusive row set records the row, yet the shared row set
**still records (1,5)** — the source removes the replaced lock from the
transaction's table lock set instead of its row lock set. -/
theorem C8_code_bug :
    (LockTable tableUpgradeTxn .EXCLUSIVE 1 tableUpgradeLM).outcome = .ret true ∧
    (aGet (LockTable tableUpgradeTxn .EXCLUSIVE 1 tableUpgradeLM).lm.tableLockMap 1).map
      LockRequestQueue.upgrading = some (-1) ∧
    (LockTable tableUpgradeTxn .EXCLUSIVE 1 tableUpgradeLM).txn.sharedTableLockSet = [] ∧
    (LockTable tableUpgradeTxn .EXCLUSIVE 1 tableUpgradeLM).txn.exclusiveTableLockSet = [1] ∧
    (LockRow rowUpgradeTxn .EXCLUSIVE 1 5 rowUpgradeLM).outcome = .ret true ∧
    (aGet (LockRow rowUpgradeTxn .EXCLUSIVE 1 5 rowUpgradeLM).lm.rowLockMap 5).map
      LockRequestQueue.upgrading = some (-1) ∧
    (1, 5) ∈ (LockRow rowUpgradeTxn .EXCLUSIVE 1 5 rowUpgradeLM).txn.exclusiveRowLockSet ∧
    (1, 5) ∈ (LockRow rowUpgradeTxn .EXCLUSIVE 1 5 rowUpgradeLM).txn.sharedRowLockSet := by
  decide

/-! ## Deadlock detection (`RunCycleDetection`, `HasCycle`, `build_graph`)

`waits_for` maps a waiting transaction to the ordered set of transactions it
waits for; we keep the map sorted by key and each neighbour set sorted
ascending, matching ordered-container iteration. -/

/-- `std::set<txn_id_t>` insertion in sorted position. -/
def sortedInsertNat (l : List Nat) (x : Nat) : List Nat :=
  match l with
  | [] => [x]
  | y :: ys => if x < y then x :: y :: ys else if x = y then y :: ys else y :: sortedInsertNat ys x

/-- `LockManager::AddEdge`: `waits_for[t1].insert(t2)`. -/
def wfAddEdge (g : List (Nat × List Nat)) (t1 t2 : Nat) : List (Nat × List Nat) :=
  match g with
  | [] => [(t1, [t2])]
  | (k, v) :: rest =>
    if t1 < k then (t1, [t2]) :: (k, v) :: rest
    else if t1 = k then (k, sortedInsertNat v t2) :: rest
    else (k, v) :: wfAddEdge rest t1 t2

/-- One queue's contribution to `build_graph`: an edge `requester → holder`
for every ungranted/granted pair with conflicting modes (requests of
transactions satisfying `skip` are ignored — the table pass skips ABORTED
transactions, the row pass skips none). -/
def edgesFromQueue (g : List (Nat × List Nat)) (reqs : List LockRequest)
    (skip : Nat → Bool) : List (Nat × List Nat) :=
  reqs.foldl
    (fun g lr1 =>
      reqs.foldl
        (fun g lr2 =>
          if !skip lr1.txnId && !skip lr2.txnId && !lr1.granted && lr2.granted &&
              !(LockCompatible lr1.lockMode lr2.lockMode) then
            wfAddEdge g lr1.txnId lr2.txnId
          else g)
        g)
    g

/-- `LockManager::build_graph`. -/
def build_graph (txnStates : List (Nat × TransactionState)) (lm : LockManager) :
    List (Nat × List Nat) :=
  let aborted := fun tid => decide ((aGet txnStates tid).getD .GROWING = .ABORTED)
  let g := lm.tableLockMap.foldl (fun g e => edgesFromQueue g e.2.requests aborted) []
  lm.rowLockMap.foldl (fun g e => edgesFromQueue g e.2.requests (fun _ => false)) g

structure DfsState where
  hasSearch : List Nat
  inStk : List Nat
  stk : List Nat
deriving Repr, DecidableEq

/-- `LockManager::HasCycle`: depth-first search over `waits_for`; a back edge
to a node on the stack reports a cycle and freezes the stack.  The fuel
argument bounds the recursion depth; any fuel larger than the number of
distinct reachable nodes is enough (the search never revisits a searched
node). -/
def HasCycle (g : List (Nat × List Nat)) : Nat → Nat → DfsState → Bool × DfsState
  | 0, _, st => (false, st)
  | fuel + 1, t, st =>
    let st := ⟨sInsert st.hasSearch t, sInsert st.inStk t, st.stk ++ [t]⟩
    let r := ((aGet g t).getD []).foldl
      (fun acc x =>
        if acc.1 then acc
        else if ¬ (x ∈ acc.2.hasSearch) then HasCycle g fuel x acc.2
        else if x ∈ acc.2.inStk then (true, acc.2)
        else acc)
      (false, st)
    if r.1 then (true, r.2)
    else (false, { r.2 with stk := r.2.stk.dropLast, inStk := sErase r.2.inStk t })

/-- The victim-selection loop of `RunCycleDetection`: scan `waits_for` keys
in order, skipping already-searched nodes; on the first cycle the aborted
transaction is `stk.back()`, the top of the DFS stack. -/
def findVictim (g : List (Nat × List Nat)) (fuel : Nat) :
    List (Nat × List Nat) → DfsState → Option Nat
  | [], _ => none
  | e :: rest, st =>
    if ¬ (e.1 ∈ st.hasSearch) then
      match HasCycle g fuel e.1 st with
      | (true, st2) => some (st2.stk.getLastD 0)
      | (false, st2) => findVictim g fuel rest st2
    else findVictim g fuel rest st

/-- The transaction aborted by one detection pass (`stk.back()`). -/
def DetectVictim (g : List (Nat × List Nat)) (fuel : Nat) : Option Nat :=
  findVictim g fuel g ⟨[], [], []⟩

/-- `t1 → t2` is an edge of the waits-for graph. -/
def hasEdge (g : List (Nat × List Nat)) (t1 t2 : Nat) : Prop :=
  t2 ∈ (aGet g t1).getD []

instance (g : List (Nat × List Nat)) (t1 t2 : Nat) : Decidable (hasEdge g t1 t2) := by
  unfold hasEdge; infer_instance

/-- The per-queue effect of `RemoveAllAboutAbortTxn`: erase every request of
the aborted transaction. -/
def removeTxnFromQueue (q : LockRequestQueue) (tid : Nat) : LockRequestQueue :=
  { q with requests := q.requests.filter (fun lr => lr.txnId ≠ tid) }

/-- `LockManager::RemoveAllAboutAbortTxn` restricted to the two queue maps
(the concurrent notification and the edge deletion are not modelled). -/
def RemoveAllAboutAbortTxn (lm : LockManager) (tid : Nat) : LockManager :=
  ⟨lm.tableLockMap.map (fun e => (e.1, removeTxnFromQueue e.2 tid)),
   lm.rowLockMap.map (fun e => (e.1, removeTxnFromQueue e.2 tid))⟩

/-- Row-lock queues of the three-transaction deadlock 1 → 3 → 2 → 1:
on row 1, transaction 3 holds X and transaction 1 waits for X; on row 2,
transaction 2 holds and 3 waits; on row 3, transaction 1 holds and 2 waits. -/
def deadlockRowLM : LockManager :=
  ⟨[],
   [(1, ⟨[⟨3, .EXCLUSIVE, 1, some 1, true⟩, ⟨1, .EXCLUSIVE, 1, some 1, false⟩], -1⟩),
    (2, ⟨[⟨2, .EXCLUSIVE, 2, some 2, true⟩, ⟨3, .EXCLUSIVE, 2, some 2, false⟩], -1⟩),
    (3, ⟨[⟨1, .EXCLUSIVE, 3, some 3, true⟩, ⟨2, .EXCLUSIVE, 3, some 3, false⟩], -1⟩)]⟩

/-- The waits-for graph the detector builds from those queues. -/
def deadlockGraph : List (Nat × List Nat) := build_graph [] deadlockRowLM

/-- C3 counterexample: the queues of `deadlockRowLM` produce the cyclic
waits-for graph 1 → 3 → 2 → 1, whose youngest member is transaction 3; the
detector aborts `stk.back()`, which on this graph is transaction 2, not 3. -/
theorem C3_counterexample :
    deadlockGraph = [(1, [3]), (2, [1]), (3, [2])] ∧
    hasEdge deadlockGraph 1 3 ∧ hasEdge deadlockGraph 3 2 ∧ hasEdge deadlockGraph 2 1 ∧
    DetectVictim deadlockGraph 9 = some 2 ∧
    DetectVictim deadlockGraph 9 ≠ some 3 := by
  decide

/-- C3 (amended): the detector aborts the transaction on top of the DFS
stack when a back edge is found — for the two-transaction deadlock of
scenario S6 (granted/waiting X pair in each direction, graph `a ↔ b` with
`a < b`) this is the younger transaction `b`, but on larger cycles it need
not be the youngest member (see the counterexample) — and all of the aborted
transaction's requests, granted or not, are removed from every table and row
queue while all other transactions' requests survive. -/
theorem C3_amended :
    (∀ a b : Nat, a < b → DetectVictim [(a, [b]), (b, [a])] 2 = some b) ∧
    (∀ (lm : LockManager) (tid : Nat),
      (∀ e ∈ (RemoveAllAboutAbortTxn lm tid).tableLockMap, ∀ lr ∈ e.2.requests,
        lr.txnId ≠ tid) ∧
      (∀ e ∈ (RemoveAllAboutAbortTxn lm tid).rowLockMap, ∀ lr ∈ e.2.requests,
        lr.txnId ≠ tid) ∧
      (∀ e ∈ lm.tableLockMap,
        (e.1, removeTxnFromQueue e.2 tid) ∈ (RemoveAllAboutAbortTxn lm tid).tableLockMap ∧
        ∀ lr ∈ e.2.requests, lr.txnId ≠ tid → lr ∈ (removeTxnFromQueue e.2 tid).requests) ∧
      (∀ e ∈ lm.rowLockMap,
        (e.1, removeTxnFromQueue e.2 tid) ∈ (RemoveAllAboutAbortTxn lm tid).rowLockMap ∧
        ∀ lr ∈ e.2.requests, lr.txnId ≠ tid → lr ∈ (removeTxnFromQueue e.2 tid).requests)) := by
  constructor
  · intro a b hab
    have hne : a ≠ b := Nat.ne_of_lt hab
    have hne2 : b ≠ a := hne.symm
    simp [DetectVictim, findVictim, HasCycle, aGet, sInsert, hne, hne2, List.find?]
  · intro lm tid
    refine ⟨?_, ?_, ?_, ?_⟩
    · intro e he lr hlr
      rcases List.mem_map.mp he with ⟨e0, _, rfl⟩
      simpa using (List.mem_filter.mp hlr).2
    · intro e he lr hlr
      rcases List.mem_map.mp he with ⟨e0, _, rfl⟩
      simpa using (List.mem_filter.mp hlr).2
    · intro e he
      exact ⟨List.mem_map.mpr ⟨e, he, rfl⟩,
        fun lr hlr hne => List.mem_filter.mpr ⟨hlr, by simpa using hne⟩⟩
    · intro e he
      exact ⟨List.mem_map.mpr ⟨e, he, rfl⟩,
        fun lr hlr hne => List.mem_filter.mpr ⟨hlr, by simpa using hne⟩⟩

theorem C3_amended_witness :
    DetectVictim [(1, [2]), (2, [1])] 2 = some 2 ∧
    (∀ e ∈ (RemoveAllAboutAbortTxn deadlockRowLM 2).rowLockMap, ∀ lr ∈ e.2.requests,
      lr.txnId ≠ 2) :=
  ⟨C3_amended.1 1 2 (by decide), (C3_amended.2 deadlockRowLM 2).2.1⟩

/-! ## B+Tree binary search (`BPlusTree::BinaryFind`, both overloads)

`comparator_(x, key) != 1` is `x ≤ key`; `comparator_(x, key) == 1` is
`key < x`.  The loop, shared by both overloads, narrows `[l, r]` keeping the
candidate answer at `r`. -/

def bfLoopGo (keys : List Int) (key : Int) : Nat → Nat → Nat → Nat
  | 0, _, r => r
  | n + 1, l, r =>
    if l < r then
      let mid := (l + r + 1) / 2
      if keys.getD mid 0 ≤ key then bfLoopGo keys key n mid r
      else bfLoopGo keys key n l (mid - 1)
    else r

/-- The fuel `r - l` is exactly the worst-case number of iterations, so the
wrapper computes the loop's fixpoint. -/
def bfLoop (keys : List Int) (key : Int) (l r : Nat) : Nat :=
  bfLoopGo keys key (r - l) l r

/-- Leaf overload of `BPlusTree::BinaryFind`; `keys` is the occupied prefix
`key[0..size)` of the leaf. -/
def BinaryFindLeaf (keys : List Int) (key : Int) : Int :=
  if keys.length = 0 then -1
  else
    let r := bfLoop keys key 0 (keys.length - 1)
    if key < keys.getD r 0 then -1 else (r : Int)

/-- Internal overload of `BPlusTree::BinaryFind`; `keys` is the slot array
`key[0..size)` with the unused slot 0. -/
def BinaryFindInternal (keys : List Int) (key : Int) : Int :=
  if keys.length ≤ 1 then 0
  else
    let r := bfLoop keys key 1 (keys.length - 1)
    if key < keys.getD r 0 then 0 else (r : Int)

theorem bfLoopGo_spec (keys : List Int) (key : Int) (lb : Nat)
    (hmono : ∀ i j, lb ≤ i → i ≤ j → j < keys.length → keys.getD i 0 ≤ keys.getD j 0) :
    ∀ (n l r : Nat), r - l ≤ n → lb ≤ l → l ≤ r → r < keys.length →
      l ≤ bfLoopGo keys key n l r ∧ bfLoopGo keys key n l r ≤ r ∧
      (∀ i, bfLoopGo keys key n l r < i → i ≤ r → key < keys.getD i 0) ∧
      (keys.getD (bfLoopGo keys key n l r) 0 ≤ key ∨ bfLoopGo keys key n l r = l) := by
  intro n
  induction n with
  | zero =>
    intro l r hn _ hlr hrlen
    rw [bfLoopGo]
    exact ⟨hlr, le_refl r, fun i h1 h2 => absurd (lt_of_lt_of_le h1 h2) (lt_irrefl r),
      Or.inr (by omega)⟩
  | succ n ih =>
    intro l r hn hlbl hlr hrlen
    rw [bfLoopGo]
    by_cases hltr : l < r
    · simp only [if_pos hltr]
      have hmid1 : l < (l + r + 1) / 2 := by omega
      have hmid2 : (l + r + 1) / 2 ≤ r := by omega
      by_cases hcmp : keys.getD ((l + r + 1) / 2) 0 ≤ key
      · simp only [if_pos hcmp]
        have := ih ((l + r + 1) / 2) r (by omega) (by omega) hmid2 hrlen
        obtain ⟨h1, h2, h3, h4⟩ := this
        refine ⟨by omega, h2, h3, Or.inl ?_⟩
        rcases h4 with h | h
        · exact h
        · rw [h]; exact hcmp
      · simp only [if_neg hcmp]
        have := ih l ((l + r + 1) / 2 - 1) (by omega) hlbl (by omega) (by omega)
        obtain ⟨h1, h2, h3, h4⟩ := this
        refine ⟨h1, by omega, ?_, h4⟩
        intro i hxi hir
        by_cases hi : i ≤ (l + r + 1) / 2 - 1
        · exact h3 i hxi hi
        · have : keys.getD ((l + r + 1) / 2) 0 ≤ keys.getD i 0 :=
            hmono _ _ (by omega) (by omega) (by omega)
          omega
    · simp only [if_neg hltr]
      have hleq : l = r := by omega
      exact ⟨hlr, le_refl r, fun i h1 h2 => absurd (lt_of_lt_of_le h1 h2) (lt_irrefl r),
        Or.inr hleq.symm⟩

theorem bfLoop_spec (keys : List Int) (key : Int) (lb : Nat)
    (hmono : ∀ i j, lb ≤ i → i ≤ j → j < keys.length → keys.getD i 0 ≤ keys.getD j 0)
    (n l r : Nat) (hn : r - l ≤ n) (hlb : lb ≤ l) (hlr : l ≤ r) (hrlen : r < keys.length) :
    l ≤ bfLoop keys key l r ∧ bfLoop keys key l r ≤ r ∧
    (∀ i, bfLoop keys key l r < i → i ≤ r → key < keys.getD i 0) ∧
    (keys.getD (bfLoop keys key l r) 0 ≤ key ∨ bfLoop keys key l r = l) := by
  unfold bfLoop
  exact bfLoopGo_spec keys key lb hmono (r - l) l r (le_refl _) hlb hlr hrlen

theorem BinaryFindLeaf_eq (keys : List Int) (key : Int) (h : ¬ keys.length = 0) :
    BinaryFindLeaf keys key =
      if key < keys.getD (bfLoop keys key 0 (keys.length - 1)) 0 then -1
      else (bfLoop keys key 0 (keys.length - 1) : Int) := by
  unfold BinaryFindLeaf
  rw [if_neg h]

theorem BinaryFindInternal_eq (keys : List Int) (key : Int) (h : ¬ keys.length ≤ 1) :
    BinaryFindInternal keys key =
      if key < keys.getD (bfLoop keys key 1 (keys.length - 1)) 0 then 0
      else (bfLoop keys key 1 (keys.length - 1) : Int) := by
  unfold BinaryFindInternal
  rw [if_neg h]

/-- C9: binary-search contract.  On a leaf whose occupied keys are strictly
increasing, `BinaryFind` returns the largest index `i` with
`key[i] ≤ key`, or −1 if every key exceeds `key`.  On an internal page whose
keys from slot 1 on are strictly increasing (slot 0 acting as −∞), it
returns the largest index `i ≥ 1` with `key[i] ≤ key`, or 0 if none — in
particular the result is always ≥ 0. -/
theorem C9_binary_search :
    (∀ (keys : List Int) (key : Int),
      (∀ i j, i < j → j < keys.length → keys.getD i 0 < keys.getD j 0) →
      (BinaryFindLeaf keys key = -1 ∧ ∀ i, i < keys.length → key < keys.getD i 0) ∨
      (∃ x : Nat, BinaryFindLeaf keys key = (x : Int) ∧ x < keys.length ∧
        keys.getD x 0 ≤ key ∧ ∀ i, i < keys.length → keys.getD i 0 ≤ key → i ≤ x)) ∧
    (∀ (keys : List Int) (key : Int),
      (∀ i j, 1 ≤ i → i < j → j < keys.length → keys.getD i 0 < keys.getD j 0) →
      ∃ x : Nat, BinaryFindInternal keys key = (x : Int) ∧
        (x = 0 ∨ (x < keys.length ∧ keys.getD x 0 ≤ key)) ∧
        0 ≤ BinaryFindInternal keys key ∧
        ∀ i, 1 ≤ i → i < keys.length → keys.getD i 0 ≤ key → i ≤ x) := by
  constructor
  · intro keys key hsorted
    by_cases hlen : keys.length = 0
    · left
      refine ⟨by simp [BinaryFindLeaf, hlen], fun i hi => absurd hi (by omega)⟩
    · have hmono : ∀ i j, 0 ≤ i → i ≤ j → j < keys.length →
          keys.getD i 0 ≤ keys.getD j 0 := by
        intro i j _ hij hj
        rcases Nat.eq_or_lt_of_le hij with h | h
        · rw [h]
        · exact le_of_lt (hsorted i j h hj)
      obtain ⟨h1, h2, h3, h4⟩ := bfLoop_spec keys key 0 hmono keys.length 0
        (keys.length - 1) (by omega) (by omega) (by omega) (by omega)
      rw [BinaryFindLeaf_eq keys key hlen]
      by_cases hcmp : key < keys.getD (bfLoop keys key 0 (keys.length - 1)) 0
      · left
        rw [if_pos hcmp]
        refine ⟨rfl, ?_⟩
        intro i hi
        have hx0 : bfLoop keys key 0 (keys.length - 1) = 0 := by
          rcases h4 with h | h
          · omega
          · exact h
        rcases Nat.eq_zero_or_pos i with h0 | h0
        · rw [h0, ← hx0]; exact hcmp
        · exact h3 i (by omega) (by omega)
      · right
        rw [if_neg hcmp]
        refine ⟨bfLoop keys key 0 (keys.length - 1), rfl, by omega, by omega, ?_⟩
        intro i hi hik
        by_contra hgt
        have := h3 i (by omega) (by omega)
        omega
  · intro keys key hsorted
    by_cases hlen : keys.length ≤ 1
    · refine ⟨0, by simp [BinaryFindInternal, hlen], Or.inl rfl,
        by simp [BinaryFindInternal, hlen], fun i h1i hi => absurd hi (by omega)⟩
    · have hmono : ∀ i j, 1 ≤ i → i ≤ j → j < keys.length →
          keys.getD i 0 ≤ keys.getD j 0 := by
        intro i j h1 hij hj
        rcases Nat.eq_or_lt_of_le hij with h | h
        · rw [h]
        · exact le_of_lt (hsorted i j h1 h hj)
      obtain ⟨h1, h2, h3, h4⟩ := bfLoop_spec keys key 1 hmono keys.length 1
        (keys.length - 1) (by omega) (by omega) (by omega) (by omega)
      rw [BinaryFindInternal_eq keys key hlen]
      by_cases hcmp : key < keys.getD (bfLoop keys key 1 (keys.length - 1)) 0
      · rw [if_pos hcmp]
        refine ⟨0, rfl, Or.inl rfl, le_refl 0, ?_⟩
        intro i h1i hi hik
        have hx1 : bfLoop keys key 1 (keys.length - 1) = 1 := by
          rcases h4 with h | h
          · omega
          · exact h
        rcases Nat.eq_or_lt_of_le h1i with h0 | h0
        · rw [← h0, ← hx1] at hik; omega
        · have := h3 i (by omega) (by omega)
          omega
      · rw [if_neg hcmp]
        refine ⟨bfLoop keys key 1 (keys.length - 1), rfl,
          Or.inr ⟨by omega, by omega⟩, by omega, ?_⟩
        intro i h1i hi hik
        by_contra hgt
        have := h3 i (by omega) (by omega)
        omega

theorem C9_binary_search_witness :
    ((BinaryFindLeaf [2, 4, 6] 5 = -1 ∧
        ∀ i, i < ([2, 4, 6] : List Int).length → (5 : Int) < [2, 4, 6].getD i 0) ∨
      (∃ x : Nat, BinaryFindLeaf [2, 4, 6] 5 = (x : Int) ∧
        x < ([2, 4, 6] : List Int).length ∧ ([2, 4, 6] : List Int).getD x 0 ≤ 5 ∧
        ∀ i, i < ([2, 4, 6] : List Int).length → ([2, 4, 6] : List Int).getD i 0 ≤ 5 → i ≤ x)) ∧
    (∃ x : Nat, BinaryFindInternal [0, 3, 7] 1 = (x : Int) ∧
      (x = 0 ∨ (x < ([0, 3, 7] : List Int).length ∧ ([0, 3, 7] : List Int).getD x 0 ≤ 1)) ∧
      0 ≤ BinaryFindInternal [0, 3, 7] 1 ∧
      ∀ i, 1 ≤ i → i < ([0, 3, 7] : List Int).length →
        ([0, 3, 7] : List Int).getD i 0 ≤ 1 → i ≤ x) :=
  ⟨C9_binary_search.1 [2, 4, 6] 5
      (by
        intro i j hij hj
        have hj3 : j < 3 := by simpa using hj
        interval_cases j <;> interval_cases i <;> simp_all),
   C9_binary_search.2 [0, 3, 7] 1
      (by
        intro i j h1 hij hj
        have hj3 : j < 3 := by simpa using hj
        interval_cases j <;> interval_cases i <;> simp_all)⟩

/-! ## B+Tree pages (`src/storage/index/b_plus_tree.cpp`)

Pages live in a store keyed by page id; the buffer pool is abstracted away
(every fetch of a valid id succeeds and sees the page's current contents —
single-threaded, pool large enough, no eviction).  A page's key/value/child
arrays are backing lists that may be longer than the page's `size`; reads
default to 0 (pages are zero-filled on allocation), so stale slots behind a
shrunken `size` keep their old contents exactly as on the machine.  Sizes
and indices are `Int`, as in the source (`int`).

`GetMinSize` is not part of the sources (the page-layout translation units
are absent).  Modelled from the spec: §4.4 states leaf min = ⌊max/2⌋ and
internal min = ⌈max/2⌉, but §8.4's size bounds (`[min+1, max]` children) and
the split arithmetic of the source presuppose ⌊max/2⌋ for internal pages as
well (the upstream code base uses `max_size_ / 2` for both); we model
`GetMinSize = max_size / 2` for both page kinds. -/

/-- Write slot `i` of a backing array, zero-filling any gap. -/
def arrSet (l : List α) (i : Nat) (x : α) (z : α) : List α :=
  if i < l.length then l.set i x
  else l ++ List.replicate (i - l.length) z ++ [x]

structure LeafPage where
  keys : List Int
  vals : List Nat
  size : Int
  maxSize : Int
  nextPageId : Int
deriving Repr, DecidableEq

structure InternalPage where
  keys : List Int
  children : List Int
  size : Int
  maxSize : Int
deriving Repr, DecidableEq

inductive BPTPage where
  | leaf (p : LeafPage)
  | internal (p : InternalPage)
deriving Repr, DecidableEq

/-- `BPlusTreeLeafPage::Init`. -/
def LeafPage.init (maxSize : Int) : LeafPage := ⟨[], [], 0, maxSize, -1⟩

/-- `BPlusTreeInternalPage::Init`. -/
def InternalPage.init (maxSize : Int) : InternalPage := ⟨[], [], 0, maxSize⟩

def LeafPage.KeyAt (p : LeafPage) (i : Int) : Int := p.keys.getD i.toNat 0

def LeafPage.ValueAt (p : LeafPage) (i : Int) : Nat := p.vals.getD i.toNat 0

def LeafPage.SetAt (p : LeafPage) (i : Int) (k : Int) (v : Nat) : LeafPage :=
  { p with keys := arrSet p.keys i.toNat k 0, vals := arrSet p.vals i.toNat v 0 }

def LeafPage.IncreaseSize (p : LeafPage) (d : Int) : LeafPage := { p with size := p.size + d }

/-- Modelled from the spec: `GetMinSize` (see the section comment). -/
def LeafPage.GetMinSize (p : LeafPage) : Int := p.maxSize / 2

def InternalPage.KeyAt (p : InternalPage) (i : Int) : Int := p.keys.getD i.toNat 0

def InternalPage.ValueAt (p : InternalPage) (i : Int) : Int := p.children.getD i.toNat 0

def InternalPage.SetAt (p : InternalPage) (i : Int) (k : Int) (c : Int) : InternalPage :=
  { p with keys := arrSet p.keys i.toNat k 0, children := arrSet p.children i.toNat c 0 }

def InternalPage.SetKeyAt (p : InternalPage) (i : Int) (k : Int) : InternalPage :=
  { p with keys := arrSet p.keys i.toNat k 0 }

def InternalPage.IncreaseSize (p : InternalPage) (d : Int) : InternalPage :=
  { p with size := p.size + d }

def InternalPage.SetSize (p : InternalPage) (n : Int) : InternalPage := { p with size := n }

/-- Modelled from the spec: `GetMinSize` (see the section comment). -/
def InternalPage.GetMinSize (p : InternalPage) : Int := p.maxSize / 2

/-- `for (int i = hi; i > lo; i--) SetAt(i, KeyAt(i-1), ValueAt(i-1))` —
shift entries one slot to the right (the fuel is the exact iteration
count). -/
def leafShiftUpGo (hi lo : Int) : Nat → LeafPage → LeafPage
  | 0, p => p
  | n + 1, p =>
    if lo < hi then leafShiftUpGo (hi - 1) lo n (p.SetAt hi (p.KeyAt (hi - 1)) (p.ValueAt (hi - 1)))
    else p

def leafShiftUp (p : LeafPage) (hi lo : Int) : LeafPage :=
  leafShiftUpGo hi lo (hi - lo).toNat p

/-- `for (int i = lo; i < hi; i++) SetAt(i, KeyAt(i+1), ValueAt(i+1))` —
shift entries one slot to the left. -/
def leafShiftDownGo (hi : Int) : Nat → Int → LeafPage → LeafPage
  | 0, _, p => p
  | n + 1, lo, p =>
    if lo < hi then leafShiftDownGo hi n (lo + 1) (p.SetAt lo (p.KeyAt (lo + 1)) (p.ValueAt (lo + 1)))
    else p

def leafShiftDown (p : LeafPage) (lo hi : Int) : LeafPage :=
  leafShiftDownGo hi (hi - lo).toNat lo p

/-- The split move loop: copy source entries `[i, hi)` into the destination
from slot `j` on, adjusting both sizes entry by entry. -/
def leafMoveGo (hi : Int) : Nat → LeafPage → LeafPage → Int → Int → LeafPage × LeafPage
  | 0, src, dst, _, _ => (src, dst)
  | n + 1, src, dst, i, j =>
    if i < hi then
      let dst := ((dst.SetAt j (src.KeyAt i) (src.ValueAt i)).IncreaseSize 1)
      leafMoveGo hi n (src.IncreaseSize (-1)) dst (i + 1) (j + 1)
    else (src, dst)

def leafMove (src dst : LeafPage) (i j hi : Int) : LeafPage × LeafPage :=
  leafMoveGo hi (hi - i).toNat src dst i j

def internalShiftUpGo (lo : Int) : Nat → Int → InternalPage → InternalPage
  | 0, _, p => p
  | n + 1, hi, p =>
    if lo < hi then
      internalShiftUpGo lo n (hi - 1) (p.SetAt hi (p.KeyAt (hi - 1)) (p.ValueAt (hi - 1)))
    else p

def internalShiftUp (p : InternalPage) (hi lo : Int) : InternalPage :=
  internalShiftUpGo lo (hi - lo).toNat hi p

def internalShiftDownGo (hi : Int) : Nat → Int → InternalPage → InternalPage
  | 0, _, p => p
  | n + 1, lo, p =>
    if lo < hi then
      internalShiftDownGo hi n (lo + 1) (p.SetAt lo (p.KeyAt (lo + 1)) (p.ValueAt (lo + 1)))
    else p

def internalShiftDown (p : InternalPage) (lo hi : Int) : InternalPage :=
  internalShiftDownGo hi (hi - lo).toNat lo p

def internalMoveGo (hi : Int) :
    Nat → InternalPage → InternalPage → Int → Int → InternalPage × InternalPage
  | 0, src, dst, _, _ => (src, dst)
  | n + 1, src, dst, i, j =>
    if i < hi then
      let dst := ((dst.SetAt j (src.KeyAt i) (src.ValueAt i)).IncreaseSize 1)
      internalMoveGo hi n (src.IncreaseSize (-1)) dst (i + 1) (j + 1)
    else (src, dst)

def internalMove (src dst : InternalPage) (i j hi : Int) : InternalPage × InternalPage :=
  internalMoveGo hi (hi - i).toNat src dst i j

/-- The copy loop of the leaf merges: append source entries `[j, hi)` to the
destination starting at slot `i`, growing the destination's size. -/
def leafAppendFromGo (src : LeafPage) (hi : Int) : Nat → LeafPage → Int → Int → LeafPage
  | 0, dst, _, _ => dst
  | n + 1, dst, i, j =>
    if j < hi then
      leafAppendFromGo src hi n ((dst.SetAt i (src.KeyAt j) (src.ValueAt j)).IncreaseSize 1)
        (i + 1) (j + 1)
    else dst

def leafAppendFrom (dst src : LeafPage) (i j hi : Int) : LeafPage :=
  leafAppendFromGo src hi (hi - j).toNat dst i j

def internalAppendFromGo (src : InternalPage) (hi : Int) :
    Nat → InternalPage → Int → Int → InternalPage
  | 0, dst, _, _ => dst
  | n + 1, dst, i, j =>
    if j < hi then
      internalAppendFromGo src hi n ((dst.SetAt i (src.KeyAt j) (src.ValueAt j)).IncreaseSize 1)
        (i + 1) (j + 1)
    else dst

def internalAppendFrom (dst src : InternalPage) (i j hi : Int) : InternalPage :=
  internalAppendFromGo src hi (hi - j).toNat dst i j

/-- The occupied key prefix `KeyAt(0..size)`, as read through the page
accessor (zero default beyond the backing list). -/
def LeafPage.keyPrefix (p : LeafPage) : List Int :=
  (List.range p.size.toNat).map (fun i => p.keys.getD i 0)

def InternalPage.keyPrefix (p : InternalPage) : List Int :=
  (List.range p.size.toNat).map (fun i => p.keys.getD i 0)

/-- `BinaryFind` on a leaf page. -/
def LeafPage.BinaryFind (p : LeafPage) (key : Int) : Int := BinaryFindLeaf p.keyPrefix key

/-- `BinaryFind` on an internal page. -/
def InternalPage.BinaryFind (p : InternalPage) (key : Int) : Int :=
  BinaryFindInternal p.keyPrefix key

structure BPlusTree where
  pages : List (Int × BPTPage)
  headerRoot : Int
  nextPageId : Int
  leafMaxSize : Int
  internalMaxSize : Int
deriving Repr, DecidableEq

/-- A tree whose header page holds `root_page_id_ = INVALID_PAGE_ID`. -/
def BPlusTree.new (leafMaxSize internalMaxSize : Int) : BPlusTree :=
  ⟨[], -1, 1, leafMaxSize, internalMaxSize⟩

def BPlusTree.getPage (t : BPlusTree) (pid : Int) : Option BPTPage := aGet t.pages pid

def BPlusTree.setPage (t : BPlusTree) (pid : Int) (p : BPTPage) : BPlusTree :=
  { t with pages := aSet t.pages pid p }

/-- `bpm_->NewPageGuarded`: allocate a fresh zero-filled page id. -/
def BPlusTree.allocPage (t : BPlusTree) : Int × BPlusTree :=
  (t.nextPageId, { t with nextPageId := t.nextPageId + 1 })

/-- `BPlusTree::GetValue`.  Fuel bounds the descent; `none` means the fuel
ran out (any fuel exceeding the tree height is enough). -/
def BPlusTree.GetValueGo (t : BPlusTree) (key : Int) : Nat → Int → Option (Option Nat)
  | 0, _ => none
  | fuel + 1, pid =>
    match t.getPage pid with
    | some (.leaf leaf) =>
      let index := leaf.BinaryFind key
      if index < 0 ∨ leaf.KeyAt index ≠ key then some none
      else some (some (leaf.ValueAt index))
    | some (.internal internal) =>
      let index := internal.BinaryFind key
      t.GetValueGo key fuel (internal.ValueAt index)
    | none => some none

def BPlusTree.GetValue (t : BPlusTree) (key : Int) (fuel : Nat) : Option (Option Nat) :=
  if t.headerRoot = -1 then some none
  else t.GetValueGo key fuel t.headerRoot

/-- `BPlusTree::SplitLeaf`: split the full leaf at `pid` while inserting
`(key, value)`; returns the key pushed up, the new right leaf's page id, and
the updated store. -/
def BPlusTree.SplitLeaf (t : BPlusTree) (pid : Int) (key : Int) (value : Nat) :
    Int × Int × BPlusTree :=
  match t.getPage pid with
  | some (.leaf leaf) =>
    let mid0 := leaf.GetMinSize
    let midKey := leaf.KeyAt mid0
    let pl :=
      if midKey < key then
        (false, if leaf.maxSize % 2 = 1 then mid0 + 1 else mid0)
      else
        if leaf.maxSize % 2 = 0 then
          if key < leaf.KeyAt (mid0 - 1) then (true, mid0 - 1) else (false, mid0)
        else (true, mid0)
    let putLeft := pl.1
    let mid := pl.2
    let al := t.allocPage
    let newId := al.1
    let t := al.2
    let newLeaf := LeafPage.init t.leafMaxSize
    let leafSize := leaf.size
    let mv := leafMove leaf newLeaf mid 0 leafSize
    let leaf := mv.1
    let newLeaf := mv.2
    let putIn := if putLeft then leaf else newLeaf
    let idx := putIn.BinaryFind key
    let putIn := leafShiftUp putIn putIn.size (idx + 1)
    let putIn := (putIn.SetAt (idx + 1) key value).IncreaseSize 1
    let leaf := if putLeft then putIn else leaf
    let newLeaf := if putLeft then newLeaf else putIn
    let newLeaf := { newLeaf with nextPageId := leaf.nextPageId }
    let leaf := { leaf with nextPageId := newId }
    let upKey := newLeaf.KeyAt 0
    (upKey, newId, (t.setPage pid (.leaf leaf)).setPage newId (.leaf newLeaf))
  | _ => (0, -1, t)

/-- `BPlusTree::SplitInternal`: split the full internal page at `pid` while
inserting the pushed-up `(key, new_child_id)`; returns the new separator,
the new right internal's page id, and the updated store.  Faithful to the
source, including the read of `KeyAt(mid + 1)` and the `up_key == key`
special case. -/
def BPlusTree.SplitInternal (t : BPlusTree) (pid : Int) (key : Int) (newChildId : Int) :
    Int × Int × BPlusTree :=
  match t.getPage pid with
  | some (.internal internal) =>
    let mid0 := internal.GetMinSize
    let midKey := internal.KeyAt mid0
    let upm :=
      if midKey < key then
        (if internal.KeyAt (mid0 + 1) < key then internal.KeyAt (mid0 + 1) else key,
         mid0 + 1, false)
      else (midKey, mid0, true)
    let upKey := upm.1
    let mid := upm.2.1
    let putLeft := upm.2.2
    let upKeyId := internal.ValueAt mid
    let internal :=
      if upKey ≠ key then
        (internalShiftDown internal mid (internal.size - 1)).IncreaseSize (-1)
      else internal
    let al := t.allocPage
    let newId := al.1
    let t := al.2
    let newInternal := InternalPage.init t.internalMaxSize
    let internalSize := internal.size
    let mv := internalMove internal newInternal mid 1 internalSize
    let internal := mv.1
    let newInternal := (mv.2).IncreaseSize 1
    if upKey ≠ key then
      let putIn := if putLeft then internal else newInternal
      let idx := putIn.BinaryFind key
      let putIn := internalShiftUp putIn putIn.size (idx + 1)
      let putIn := putIn.SetAt (idx + 1) key newChildId
      let putIn :=
        if ¬ putLeft ∧ putIn.size = 0 then putIn.SetSize 2 else putIn.IncreaseSize 1
      let internal := if putLeft then putIn else internal
      let newInternal := if putLeft then newInternal else putIn
      let newInternal := newInternal.SetAt 0 0 upKeyId
      (upKey, newId, (t.setPage pid (.internal internal)).setPage newId (.internal newInternal))
    else
      let newInternal := newInternal.SetAt 0 0 newChildId
      (upKey, newId, (t.setPage pid (.internal internal)).setPage newId (.internal newInternal))
  | _ => (0, -1, t)

/-- The upward-propagation loop of `BPlusTree::Insert` (over the saved write
set), ending in a root split when the stack is exhausted. -/
def BPlusTree.InsertParentLoop (t : BPlusTree) (upKey : Int) (newChildId : Int) :
    List Int → Bool × BPlusTree
  | [] =>
    let oldId := t.headerRoot
    let al := t.allocPage
    let newRootId := al.1
    let t := al.2
    let newRoot := InternalPage.init t.internalMaxSize
    let newRoot := newRoot.SetAt 1 upKey newChildId
    let newRoot := newRoot.SetAt 0 0 oldId
    let newRoot := newRoot.SetSize 2
    (true, { t.setPage newRootId (.internal newRoot) with headerRoot := newRootId })
  | pid :: rest =>
    match t.getPage pid with
    | some (.internal p) =>
      if p.size < p.maxSize then
        let idx := p.BinaryFind upKey
        let p := internalShiftUp p p.size (idx + 1)
        let p := (p.SetAt (idx + 1) upKey newChildId).IncreaseSize 1
        (true, t.setPage pid (.internal p))
      else
        let sp := t.SplitInternal pid upKey newChildId
        BPlusTree.InsertParentLoop sp.2.2 sp.1 sp.2.1 rest
    | _ => (false, t)

/-- The descent loop of `BPlusTree::Insert`; `stack` is the saved write set,
nearest ancestor first. -/
def BPlusTree.InsertGo (t : BPlusTree) (key : Int) (value : Nat) :
    Nat → Int → List Int → Bool × BPlusTree
  | 0, _, _ => (false, t)
  | fuel + 1, pid, stack =>
    match t.getPage pid with
    | some (.internal p) =>
      let index := p.BinaryFind key
      t.InsertGo key value fuel (p.ValueAt index) (pid :: stack)
    | some (.leaf leaf) =>
      let index := leaf.BinaryFind key
      if 0 ≤ index ∧ leaf.KeyAt index = key then (false, t)
      else if leaf.size = leaf.maxSize then
        let sp := t.SplitLeaf pid key value
        BPlusTree.InsertParentLoop sp.2.2 sp.1 sp.2.1 stack
      else
        let leaf := leafShiftUp leaf leaf.size (index + 1)
        let leaf := (leaf.SetAt (index + 1) key value).IncreaseSize 1
        (true, t.setPage pid (.leaf leaf))
    | none => (false, t)

/-- `BPlusTree::Insert`. -/
def BPlusTree.Insert (t : BPlusTree) (key : Int) (value : Nat) (fuel : Nat) :
    Bool × BPlusTree :=
  let t :=
    if t.headerRoot = -1 then
      let al := t.allocPage
      let rootId := al.1
      let t := al.2
      { t.setPage rootId (.leaf (LeafPage.init t.leafMaxSize)) with headerRoot := rootId }
    else t
  t.InsertGo key value fuel t.headerRoot []

/-- `BPlusTree::Remove_Res_Guards_Pop`: walking the remaining ancestors
(nearest first), replace any separator equal to the removed key by the new
first key of the affected leaf. -/
def BPlusTree.RemoveResGuardsPop (t : BPlusTree) (stack : List (Int × Int))
    (originKey newKey : Int) : BPlusTree :=
  match stack with
  | [] => t
  | (pid, kidx) :: rest =>
    match t.getPage pid with
    | some (.internal p) =>
      let t :=
        if p.KeyAt kidx = originKey then t.setPage pid (.internal (p.SetKeyAt kidx newKey))
        else t
      t.RemoveResGuardsPop rest originKey newKey
    | _ => t.RemoveResGuardsPop rest originKey newKey

/-- The recursive internal-underflow repair loop of `BPlusTree::Remove`
(borrow from a sibling through the parent, otherwise merge and continue
upward).  Returns the store and the page id the loop variable
`parent_internal` refers to on exit (the root-collapse check reads it). -/
def BPlusTree.InternalRepairLoop (t : BPlusTree) (key leafFirst : Int) :
    Int → List (Int × Int) → BPlusTree × Int
  | curPid, [] => (t, curPid)
  | curPid, (parentPid, parentIndex) :: rest =>
    match t.getPage curPid with
    | some (.internal cur) =>
      if cur.size - 1 < cur.GetMinSize then
        match t.getPage parentPid with
        | some (.internal parent) =>
          let parent :=
            if parent.KeyAt parentIndex = key then parent.SetKeyAt parentIndex leafFirst
            else parent
          let t := t.setPage parentPid (.internal parent)
          let leftId := parent.ValueAt (parentIndex - 1)
          let rightId := parent.ValueAt (parentIndex + 1)
          let tryLeft : Option BPlusTree :=
            if 0 < parentIndex then
              match t.getPage leftId with
              | some (.internal left) =>
                if left.GetMinSize < left.size - 1 then
                  let cur := internalShiftUp cur cur.size 1
                  let cur := cur.SetAt 1 (parent.KeyAt parentIndex) (cur.ValueAt 0)
                  let cur := cur.SetAt 0 0 (left.ValueAt (left.size - 1))
                  let parent := parent.SetKeyAt parentIndex (left.KeyAt (left.size - 1))
                  let cur := cur.IncreaseSize 1
                  let left := left.IncreaseSize (-1)
                  let t := ((t.setPage curPid (.internal cur)).setPage leftId
                    (.internal left)).setPage parentPid (.internal parent)
                  some (t.RemoveResGuardsPop rest key leafFirst)
                else none
              | _ => none
            else none
          match tryLeft with
          | some t => (t, parentPid)
          | none =>
            let tryRight : Option BPlusTree :=
              if parentIndex < parent.size - 1 then
                match t.getPage rightId with
                | some (.internal right) =>
                  if right.GetMinSize < right.size - 1 then
                    let cur := cur.SetAt cur.size (parent.KeyAt (parentIndex + 1))
                      (right.ValueAt 0)
                    let parent := parent.SetKeyAt (parentIndex + 1) (right.KeyAt 1)
                    let right := right.SetAt 0 0 (right.ValueAt 1)
                    let right := internalShiftDown right 1 (right.size - 1)
                    let cur := cur.IncreaseSize 1
                    let right := right.IncreaseSize (-1)
                    let t := ((t.setPage curPid (.internal cur)).setPage rightId
                      (.internal right)).setPage parentPid (.internal parent)
                    some (t.RemoveResGuardsPop rest key leafFirst)
                  else none
                | _ => none
              else none
            match tryRight with
            | some t => (t, parentPid)
            | none =>
              if 0 < parentIndex then
                match t.getPage leftId with
                | some (.internal left) =>
                  let left := (left.SetAt left.size (parent.KeyAt parentIndex)
                    (cur.ValueAt 0)).IncreaseSize 1
                  let left := internalAppendFrom left cur left.size 1 cur.size
                  let parent := (internalShiftDown parent parentIndex
                    (parent.size - 1)).IncreaseSize (-1)
                  let t := (t.setPage leftId (.internal left)).setPage parentPid
                    (.internal parent)
                  BPlusTree.InternalRepairLoop t key leafFirst parentPid rest
                | _ => (t, parentPid)
              else
                match t.getPage rightId with
                | some (.internal right) =>
                  let cur := (cur.SetAt cur.size (parent.KeyAt (parentIndex + 1))
                    (right.ValueAt 0)).IncreaseSize 1
                  let cur := internalAppendFrom cur right cur.size 1 right.size
                  let parent := (internalShiftDown parent (parentIndex + 1)
                    (parent.size - 1)).IncreaseSize (-1)
                  let t := (t.setPage curPid (.internal cur)).setPage parentPid
                    (.internal parent)
                  BPlusTree.InternalRepairLoop t key leafFirst parentPid rest
                | _ => (t, parentPid)
        | _ => (t, curPid)
      else (t, curPid)
    | _ => (t, curPid)

/-- The leaf-underflow handling of `BPlusTree::Remove`: borrow from the left
sibling, else from the right sibling, else merge (into the left sibling when
one exists, otherwise absorb the right sibling) and repair upward; after the
repair loop, collapse the root if the loop's last parent has a single
child. -/
def BPlusTree.RemoveLeafUnderflow (t : BPlusTree) (key : Int) (leafPid : Int)
    (leaf : LeafPage) (parentPid : Int) (parentIndex : Int)
    (rest : List (Int × Int)) : BPlusTree :=
  match t.getPage parentPid with
  | some (.internal parent) =>
    let leftId := parent.ValueAt (parentIndex - 1)
    let rightId := parent.ValueAt (parentIndex + 1)
    let tryLeft : Option BPlusTree :=
      if 0 < parentIndex then
        match t.getPage leftId with
        | some (.leaf leftLeaf) =>
          if leftLeaf.GetMinSize < leftLeaf.size then
            let leaf := leafShiftUp leaf leaf.size 0
            let leaf := leaf.SetAt 0 (leftLeaf.KeyAt (leftLeaf.size - 1))
              (leftLeaf.ValueAt (leftLeaf.size - 1))
            let leaf := leaf.IncreaseSize 1
            let leftLeaf := leftLeaf.IncreaseSize (-1)
            let parent := parent.SetKeyAt parentIndex (leaf.KeyAt 0)
            let leafFirst := leaf.KeyAt 0
            let t := ((t.setPage parentPid (.internal parent)).setPage leafPid
              (.leaf leaf)).setPage leftId (.leaf leftLeaf)
            some (t.RemoveResGuardsPop rest key leafFirst)
          else none
        | _ => none
      else none
    match tryLeft with
    | some t => t
    | none =>
      let tryRight : Option BPlusTree :=
        if parentIndex < parent.size - 1 then
          match t.getPage rightId with
          | some (.leaf rightLeaf) =>
            if rightLeaf.GetMinSize < rightLeaf.size then
              let leaf := leaf.SetAt leaf.size (rightLeaf.KeyAt 0) (rightLeaf.ValueAt 0)
              let rightLeaf := leafShiftDown rightLeaf 0 (rightLeaf.size - 1)
              let leaf := leaf.IncreaseSize 1
              let rightLeaf := rightLeaf.IncreaseSize (-1)
              let parent :=
                if 0 < parentIndex then parent.SetKeyAt parentIndex (leaf.KeyAt 0)
                else parent
              let parent := parent.SetKeyAt (parentIndex + 1) (rightLeaf.KeyAt 0)
              let leafFirst := leaf.KeyAt 0
              let t := ((t.setPage parentPid (.internal parent)).setPage leafPid
                (.leaf leaf)).setPage rightId (.leaf rightLeaf)
              some (t.RemoveResGuardsPop rest key leafFirst)
            else none
          | _ => none
        else none
      match tryRight with
      | some t => t
      | none =>
        let merged : BPlusTree × Int :=
          if 0 < parentIndex then
            match t.getPage leftId with
            | some (.leaf leftLeaf) =>
              let leftLeaf := leafAppendFrom leftLeaf leaf leftLeaf.size 0 leaf.size
              let leafFirst := leftLeaf.KeyAt 0
              let leftLeaf := { leftLeaf with nextPageId := leaf.nextPageId }
              let parent := (internalShiftDown parent parentIndex
                (parent.size - 1)).IncreaseSize (-1)
              ((t.setPage leftId (.leaf leftLeaf)).setPage parentPid (.internal parent),
               leafFirst)
            | _ => (t, 0)
          else
            match t.getPage rightId with
            | some (.leaf rightLeaf) =>
              let leaf := leafAppendFrom leaf rightLeaf leaf.size 0 rightLeaf.size
              let leafFirst := leaf.KeyAt 0
              let leaf := { leaf with nextPageId := rightLeaf.nextPageId }
              let parent := (internalShiftDown parent (parentIndex + 1)
                (parent.size - 1)).IncreaseSize (-1)
              ((t.setPage leafPid (.leaf leaf)).setPage parentPid (.internal parent),
               leafFirst)
            | _ => (t, 0)
        let rp := merged.1.InternalRepairLoop key merged.2 parentPid rest
        let t := rp.1
        match t.getPage rp.2 with
        | some (.internal pi) =>
          if pi.size = 1 then { t with headerRoot := pi.ValueAt 0 } else t
        | _ => t
  | _ => t

/-- The descent loop of `BPlusTree::Remove`; `stack` pairs each ancestor
with the child index taken out of it, nearest ancestor first. -/
def BPlusTree.RemoveGo (t : BPlusTree) (key : Int) :
    Nat → Int → List (Int × Int) → BPlusTree
  | 0, _, _ => t
  | fuel + 1, pid, stack =>
    match t.getPage pid with
    | some (.internal p) =>
      let index := p.BinaryFind key
      t.RemoveGo key fuel (p.ValueAt index) ((pid, index) :: stack)
    | some (.leaf leaf) =>
      let index := leaf.BinaryFind key
      if index < 0 ∨ leaf.KeyAt index ≠ key then t
      else
        let leaf := (leafShiftDown leaf index (leaf.size - 1)).IncreaseSize (-1)
        let t := t.setPage pid (.leaf leaf)
        match stack with
        | [] => t
        | (parentPid, parentIndex) :: rest =>
          if leaf.GetMinSize ≤ leaf.size then
            t.RemoveResGuardsPop stack key (leaf.KeyAt 0)
          else
            t.RemoveLeafUnderflow key pid leaf parentPid parentIndex rest
    | none => t

/-- `BPlusTree::Remove`. -/
def BPlusTree.Remove (t : BPlusTree) (key : Int) (fuel : Nat) : BPlusTree :=
  if t.headerRoot = -1 then t
  else t.RemoveGo key fuel t.headerRoot []

/-- Insert each key with itself as value (the tests' pattern). -/
def insertAll (t : BPlusTree) (ks : List Int) : BPlusTree :=
  ks.foldl (fun t k => (t.Insert k k.toNat 30).2) t

/-- leaf_max_size = 2, internal_max_size = 4; insert keys 1..13 in order. -/
def bptAsc13 : BPlusTree :=
  insertAll (BPlusTree.new 2 4) ((List.range 13).map (fun i => (i + 1 : Int)))

/-- ... then remove key 1. -/
def bptC2bad : BPlusTree := bptAsc13.Remove 1 30

/-- C2: with `internal_max_size = 4` (min = 2 under either min-size
convention, so this is independent of the modelled `GetMinSize`), inserting
1..13 and removing 1 makes the leftmost leaf underflow and merge, its parent
(3 children) drops to 2 and, its sibling holding exactly 3 children, the two
internals merge into a node with **5 children** — the tree reachable from
the root holds an internal page exceeding `max`, violating the claimed
`size ∈ [min+1, max]` bound. -/
theorem C2_code_bug :
    bptC2bad.headerRoot = 8 ∧
    bptC2bad.getPage 8 =
      some (.internal ⟨[0, 7, 10, 10], [3, 12, 16, 16], 3, 4⟩) ∧
    bptC2bad.getPage 3 =
      some (.internal ⟨[0, 3, 4, 5, 6], [1, 4, 5, 6, 9], 5, 4⟩) ∧
    bptC2bad.internalMaxSize = 4 := by
  decide

/-! ## Iterator and `Begin(key)` (`BPlusTree::Begin`, `IndexIterator`) -/

/-- `leaf->KeyAt(index)` as evaluated by `Begin(key)`: a negative index reads
the bytes in front of the on-page array (the page header), an unspecified
value modelled by the parameter `junk`. -/
def LeafPage.KeyAtJ (p : LeafPage) (junk : Int) (i : Int) : Int :=
  if i < 0 then junk else p.KeyAt i

/-- The descent of `BPlusTree::Begin(const KeyType &)`: walk down by
`BinaryFind`; at the leaf, return `(leaf_page_id, index)` if the slot found
holds exactly `key`, and the end iterator `(-1, -1)` otherwise. -/
def BPlusTree.BeginGo (t : BPlusTree) (key junk : Int) : Nat → Int → Int × Int
  | 0, _ => (-1, -1)
  | fuel + 1, pid =>
    match t.getPage pid with
    | some (.internal p) =>
      let idx := p.BinaryFind key
      t.BeginGo key junk fuel (p.ValueAt idx)
    | some (.leaf p) =>
      let index := p.BinaryFind key
      if p.KeyAtJ junk index ≠ key then (-1, -1) else (pid, index)
    | none => (-1, -1)

/-- `BPlusTree::Begin(const KeyType &)`. -/
def BPlusTree.Begin (t : BPlusTree) (key junk : Int) (fuel : Nat) : Int × Int :=
  t.BeginGo key junk fuel t.headerRoot

/-- `BPlusTree::End`: the iterator `(leaf page id -1, slot -1)`. -/
def BPlusTree.End : Int × Int := (-1, -1)

/-- `IndexIterator::IsEnd`. -/
def IndexIterator.IsEnd (it : Int × Int) : Bool := it.1 = -1

/-- Well-shaped subtree of height `h`: every node is present in the store,
internal nodes have at least one child slot, and all children are
well-shaped of equal height.  (No ordering is assumed.) -/
inductive GoodTree (t : BPlusTree) : Int → Nat → Prop
  | leaf (pid : Int) (p : LeafPage) :
      t.getPage pid = some (.leaf p) → GoodTree t pid 0
  | internal (pid : Int) (p : InternalPage) (h : Nat) :
      t.getPage pid = some (.internal p) → 1 ≤ p.size →
      (∀ i : Nat, i < p.size.toNat → GoodTree t (p.ValueAt i) h) →
      GoodTree t pid (h + 1)

/-- The keys stored in the leaves of the subtree under `pid`. -/
def BPlusTree.keysIn (t : BPlusTree) : Nat → Int → List Int
  | 0, _ => []
  | fuel + 1, pid =>
    match t.getPage pid with
    | some (.leaf p) => p.keyPrefix
    | some (.internal p) =>
      (List.range p.size.toNat).flatMap (fun i => t.keysIn fuel (p.ValueAt i))
    | none => []

theorem bfLoopGo_bounds (keys : List Int) (key : Int) :
    ∀ (n l r : Nat), l ≤ r →
      l ≤ bfLoopGo keys key n l r ∧ bfLoopGo keys key n l r ≤ r := by
  intro n
  induction n with
  | zero => intro l r hlr; rw [bfLoopGo]; omega
  | succ n ih =>
    intro l r hlr
    rw [bfLoopGo]
    by_cases hltr : l < r
    · simp only [if_pos hltr]
      by_cases hcmp : keys.getD ((l + r + 1) / 2) 0 ≤ key
      · simp only [if_pos hcmp]
        have := ih ((l + r + 1) / 2) r (by omega)
        omega
      · simp only [if_neg hcmp]
        have := ih l ((l + r + 1) / 2 - 1) (by omega)
        omega
    · simp only [if_neg hltr]; omega

theorem BinaryFindLeaf_bounds (keys : List Int) (key : Int) :
    BinaryFindLeaf keys key = -1 ∨
    (0 ≤ BinaryFindLeaf keys key ∧ BinaryFindLeaf keys key < (keys.length : Int)) := by
  unfold BinaryFindLeaf
  by_cases hlen : keys.length = 0
  · simp [hlen]
  · simp only [if_neg hlen]
    by_cases hcmp : key < keys.getD (bfLoop keys key 0 (keys.length - 1)) 0
    · simp only [if_pos hcmp]; left; trivial
    · simp only [if_neg hcmp]
      right
      have := bfLoopGo_bounds keys key (keys.length - 1 - 0) 0 (keys.length - 1) (by omega)
      unfold bfLoop
      omega

theorem BinaryFindInternal_bounds (keys : List Int) (key : Int) :
    0 ≤ BinaryFindInternal keys key ∧
    (keys.length ≤ 1 → BinaryFindInternal keys key = 0) ∧
    (2 ≤ keys.length → BinaryFindInternal keys key < (keys.length : Int)) := by
  unfold BinaryFindInternal
  by_cases hlen : keys.length ≤ 1
  · simp only [if_pos hlen]
    exact ⟨le_refl 0, fun _ => trivial, fun h => absurd h (by omega)⟩
  · simp only [if_neg hlen]
    by_cases hcmp : key < keys.getD (bfLoop keys key 1 (keys.length - 1)) 0
    · simp only [if_pos hcmp]
      refine ⟨le_refl 0, fun h => absurd h (by omega), fun h => by omega⟩
    · simp only [if_neg hcmp]
      have := bfLoopGo_bounds keys key (keys.length - 1 - 1) 1 (keys.length - 1) (by omega)
      unfold bfLoop
      refine ⟨by omega, fun h => absurd h (by omega), fun h => by omega⟩

theorem keyPrefix_getD_mem (p : LeafPage) (i : Nat) (hi : i < p.size.toNat) :
    p.keys.getD i 0 ∈ p.keyPrefix :=
  List.mem_map.mpr ⟨i, List.mem_range.mpr hi, rfl⟩

theorem BeginGo_absent (t : BPlusTree) (key junk : Int) (hjunk : junk ≠ key) :
    ∀ (h : Nat) (pid : Int), GoodTree t pid h →
      ∀ fuel, h < fuel → key ∉ t.keysIn (h + 1) pid →
        t.BeginGo key junk fuel pid = (-1, -1) := by
  intro h pid hg
  induction hg with
  | leaf pid p hpg =>
    intro fuel hfuel habs
    obtain ⟨f, rfl⟩ : ∃ f, fuel = f + 1 := ⟨fuel - 1, by omega⟩
    simp only [BPlusTree.keysIn, hpg] at habs
    simp only [BPlusTree.BeginGo, hpg]
    have hlen : p.keyPrefix.length = p.size.toNat := by
      simp [LeafPage.keyPrefix]
    have hne : p.KeyAtJ junk (p.BinaryFind key) ≠ key := by
      rcases BinaryFindLeaf_bounds p.keyPrefix key with hneg | ⟨h0, hlt⟩
      · have : p.BinaryFind key = -1 := hneg
        rw [LeafPage.KeyAtJ, this, if_pos (by omega)]
        exact hjunk
      · have h0' : 0 ≤ p.BinaryFind key := h0
        have hlt' : p.BinaryFind key < (p.keyPrefix.length : Int) := hlt
        rw [LeafPage.KeyAtJ, if_neg (by omega), LeafPage.KeyAt]
        exact fun heq =>
          habs (heq ▸ keyPrefix_getD_mem p (p.BinaryFind key).toNat (by omega))
    rw [if_pos hne]
  | internal pid p hh hpg hsz hch ih =>
    intro fuel hfuel habs
    obtain ⟨f, rfl⟩ : ∃ f, fuel = f + 1 := ⟨fuel - 1, by omega⟩
    simp only [BPlusTree.keysIn, hpg] at habs
    simp only [BPlusTree.BeginGo, hpg]
    have hlen : p.keyPrefix.length = p.size.toNat := by
      simp [InternalPage.keyPrefix]
    obtain ⟨h0, hle1, hge2⟩ := BinaryFindInternal_bounds p.keyPrefix key
    have h0' : 0 ≤ p.BinaryFind key := h0
    have hidx : (p.BinaryFind key).toNat < p.size.toNat := by
      by_cases hc : p.keyPrefix.length ≤ 1
      · have := hle1 hc
        have : p.BinaryFind key = 0 := this
        omega
      · have := hge2 (by omega)
        have : p.BinaryFind key < (p.keyPrefix.length : Int) := this
        omega
    have hval : (((p.BinaryFind key).toNat : Nat) : Int) = p.BinaryFind key :=
      Int.toNat_of_nonneg h0'
    have habs' : key ∉ t.keysIn (hh + 1) (p.ValueAt ((p.BinaryFind key).toNat : Int)) :=
      fun hmem =>
        habs (List.mem_flatMap.mpr ⟨(p.BinaryFind key).toNat, List.mem_range.mpr hidx, hmem⟩)
    have hres := ih (p.BinaryFind key).toNat hidx f (by omega) habs'
    rw [hval] at hres
    exact hres

/-- C10: on every well-shaped tree, if `key` is stored in no leaf, then
`Begin(key)` returns the iterator `(-1, -1)`, which equals `End()` and for
which `IsEnd()` holds — regardless of the unspecified header bytes that
`leaf->KeyAt(-1)` reads when `BinaryFind` returns `-1` (as long as those
bytes do not happen to compare equal to `key`). -/
theorem C10_begin_absent (t : BPlusTree) (h fuel : Nat) (key junk : Int)
    (hg : GoodTree t t.headerRoot h) (hfuel : h < fuel)
    (habs : key ∉ t.keysIn (h + 1) t.headerRoot) (hjunk : junk ≠ key) :
    t.Begin key junk fuel = BPlusTree.End ∧
      IndexIterator.IsEnd (t.Begin key junk fuel) = true := by
  have hres := BeginGo_absent t key junk hjunk h t.headerRoot hg fuel hfuel habs
  unfold BPlusTree.Begin
  rw [hres]
  exact ⟨rfl, rfl⟩

/-- `leaf_max_size = internal_max_size = 5`; insert the single key 5. -/
def bptOne : BPlusTree := insertAll (BPlusTree.new 5 5) [5]

/-- Witness for C10 on a concrete tree: the single-leaf tree holding key 5,
probed with the absent key 3 (header junk 0). -/
theorem C10_begin_absent_witness :
    bptOne.Begin 3 0 1 = BPlusTree.End ∧
      IndexIterator.IsEnd (bptOne.Begin 3 0 1) = true :=
  C10_begin_absent bptOne 0 1 3 0
    (GoodTree.leaf 1 ⟨[5], [5], 1, 5, -1⟩ (by decide))
    (by decide) (by decide) (by decide)
